import Mathlib

/-!
Verification development for the Letterbox interpreter
(`src/storage.rs`, `src/lexerbox.rs`, `src/program.rs`).

Modelling conventions:
* Rust `f64` is modelled as `ℚ` (`Rat`).  Every numeric scenario exercised
  by the theorems below (small decimal literals, floor, comparison with 0)
  behaves identically in `f64` and `ℚ`.
* Rust `String` is modelled as `List Char`; error messages as `String`.
* `HashMap<char, Val>` is modelled as an association list with at most one
  binding per key (insert replaces in place, otherwise appends).
* A Rust `panic!`/`expect` failure is modelled by the `Ev.panicked` outcome;
  possibly non-terminating evaluation is modelled with a fuel parameter,
  `Ev.timeout` meaning the fuel ran out.
-/

namespace Letterbox

/-! ## storage.rs -/

/-- `VALID_VARS` from storage.rs. -/
def VALID_VARS : List Char := "abcdefghijklmnopqrstuvwxyz".toList

/-- `storage::is_var`. -/
def isVar (c : Char) : Bool := VALID_VARS.contains c

/-- `program::Val`: a value stored in a Letterbox variable. -/
inductive Val : Type where
  | Text : List Char → Val
  | Number : ℚ → Val
deriving DecidableEq, Repr

/-- `Val::zero()`. -/
def Val.zero : Val := Val.Number 0

/-- The `Storage.data` hash map, as an association list. -/
abbrev Store := List (Char × Val)

/-- Lookup in the association list (models `HashMap::get`/`entry` lookup). -/
def lookupVar : Store → Char → Option Val
  | [], _ => none
  | (k, v) :: t, c => if k = c then some v else lookupVar t c

/-- Insert-or-overwrite (models `HashMap::insert` / `entry().or_insert`). -/
def insertVar : Store → Char → Val → Store
  | [], c, v => [(c, v)]
  | (k, w) :: t, c, v => if k = c then (c, v) :: t else (k, w) :: insertVar t c v

/-- `Storage::get_var`: `None` for an invalid name; otherwise returns the
current value, materializing `Val::zero()` if the key is absent.  The
returned store reflects the possible materialization. -/
def getVar (st : Store) (c : Char) : Option (Val × Store) :=
  if isVar c then
    match lookupVar st c with
    | some v => some (v, st)
    | none => some (Val.zero, insertVar st c Val.zero)
  else none

/-- `Storage::set_var` (always succeeds). -/
def setVar (st : Store) (c : Char) (v : Val) : Store := insertVar st c v

/-- `Storage::reset_var` (removes the key). -/
def resetVar (st : Store) (c : Char) : Store := st.filter (fun kv => kv.1 ≠ c)

/-- `Storage::reset_all` (clears the map). -/
def resetAll (_st : Store) : Store := []

/-- `Storage::copy`: `none` models the panic of the internal
`get_var(from_var).expect(..)` on an invalid source name. -/
def copyVar (st : Store) (fromV toV : Char) : Option Store :=
  (getVar st fromV).map fun p => setVar p.2 toV p.1

/-- `Storage::var_as_bool`: Number is truthy iff non-zero, Text is always
truthy.  `none` models the panic of the internal `get_var(..).expect(..)`. -/
def varAsBool (st : Store) (c : Char) : Option (Bool × Store) :=
  (getVar st c).map fun p =>
    (match p.1 with
     | Val.Number n => decide (n ≠ 0)
     | Val.Text _ => true, p.2)

/-! ## Display for Val (program.rs `impl fmt::Display for Val`)

Rust renders `Number` with `format!("{}", f64)`: integers print without a
decimal point, other values print their (shortest) decimal expansion.  We
render integers exactly as Rust does; a value with a terminating decimal
expansion is printed with all its decimal digits.  The theorems below only
ever print integral values. -/

def intChars (i : ℤ) : List Char := (toString i).toList

def padZeros (n : Nat) (l : List Char) : List Char :=
  List.replicate (n - l.length) '0' ++ l

/-- Multiply a rational by `10 ^ k`. -/
def ratScale (q : ℚ) (k : Nat) : ℚ := mkRat (q.num * Int.ofNat (10 ^ k)) q.den

/-- Decimal rendering of a rational, matching `f64` `Display` on integers. -/
def numToChars (q : ℚ) : List Char :=
  if q.den = 1 then intChars q.num
  else
    match (List.range 64).find? (fun k => (ratScale q (k + 1)).den = 1) with
    | some k0 =>
        let k := k0 + 1
        let s := (ratScale q k).num.natAbs
        (if q.num < 0 then ['-'] else []) ++ (toString (s / 10 ^ k)).toList
          ++ '.' :: padZeros k (toString (s % 10 ^ k)).toList
    | none => (toString q.num).toList ++ '/' :: (toString q.den).toList

/-- `Display` of a `Val` (Text verbatim, Number via numeric formatting). -/
def Val.display : Val → List Char
  | Val.Text s => s
  | Val.Number q => numToChars q

/-! ## program.rs `Program::apply_argmap`

The Rust code, given the stored program text `raw` and the argmap string:
1. finds all matches of the regex `'[^']*'` (leftmost, non-overlapping;
   a match needs both an opening and a closing quote);
2. replaces every match with the placeholder `%%%` (`replace_all`);
3. for each `(param, arg)` pair of the argmap, taken two characters at a
   time, runs `str::replace` (every occurrence of the single-character
   pattern) on the current text — the pairs are applied sequentially;
4. puts the quotes back with `replacen(.., 1)` in first-match order, each
   call replacing the first occurrence of `%%%` in the current text.

`splitQ` splits the text at quote characters (dropping them), exactly like
`str::split('\'')`; the regex matches are then the 2nd, 4th, … parts, with
a trailing lone quote producing no match. -/

/-- Split at `'` characters, dropping them (never returns `[]`). -/
def splitQ : List Char → List (List Char)
  | [] => [[]]
  | c :: rest =>
    if c = '\'' then [] :: splitQ rest
    else
      match splitQ rest with
      | p :: ps => (c :: p) :: ps
      | [] => [[c]]

/-- The `%%%` placeholder used by `apply_argmap`. -/
def pct : List Char := ['%', '%', '%']

/-- From the `splitQ` decomposition, rebuild the text with every regex
match `'[^']*'` replaced by `%%%` (the `replace_all` step), and collect
the matches themselves in order (the `find_iter` result). -/
def maskParts : List (List Char) → List Char × List (List Char)
  | [] => ([], [])
  | [p] => (p, [])
  | [p, q] => (p ++ '\'' :: q, [])
  | p :: q :: r :: ps =>
    let (m, qs) := maskParts (r :: ps)
    (p ++ pct ++ m, ('\'' :: q ++ ['\'']) :: qs)

/-- `str::replace` for a single-character pattern and replacement. -/
def replaceChar (s : List Char) (p a : Char) : List Char :=
  s.map fun c => if c = p then a else c

/-- Does `patt` occur at the head of `s`? -/
def leadsWith : List Char → List Char → Bool
  | [], _ => true
  | _ :: _, [] => false
  | p :: ps, c :: cs => p = c && leadsWith ps cs

/-- `str::replacen(patt, rep, 1)`: replace the first occurrence of `patt`
(if any). -/
def replaceFirst (patt rep : List Char) : List Char → List Char
  | [] => if leadsWith patt [] then rep else []
  | c :: t =>
    if leadsWith patt (c :: t) then rep ++ (c :: t).drop patt.length
    else c :: replaceFirst patt rep t

/-- The argmap characters consumed two at a time (`step_by(2)` with
`argvec[i]`/`argvec[i+1]`); `none` models the index panic on an argmap of
odd length. -/
def toPairs : List Char → Option (List (Char × Char))
  | [] => some []
  | [_] => none
  | p :: a :: rest => (toPairs rest).map fun l => (p, a) :: l

/-- `Program::apply_argmap` (taking the argmap already split into pairs). -/
def applyArgmap (raw : List Char) (prs : List (Char × Char)) : List Char :=
  let (masked, quotes) := maskParts (splitQ raw)
  let substituted := prs.foldl (fun txt pr => replaceChar txt pr.1 pr.2) masked
  quotes.foldl (fun txt q => replaceFirst pct q txt) substituted

/-- The per-character effect of applying the argmap pairs sequentially
(left-to-right composition of the single-pair maps). -/
def chainSubst (prs : List (Char × Char)) (c : Char) : Char :=
  prs.foldl (fun c pr => if c = pr.1 then pr.2 else c) c

/-- Helper for `substKeepLits`, working on the `splitQ` decomposition. -/
def specParts : List (List Char) → (Char → Char) → List Char
  | [], _ => []
  | [p], σ => p.map σ
  | [p, q], σ => (p ++ '\'' :: q).map σ
  | p :: q :: r :: ps, σ => p.map σ ++ '\'' :: q ++ ['\''] ++ specParts (r :: ps) σ

/-- Modelled from the spec: parameter substitution as the specification
describes it — single-quoted literals are kept verbatim in place, every
character outside them is rewritten by the character map `σ`, and a
trailing unmatched quote is no literal, so substitution applies there. -/
def substKeepLits (raw : List Char) (σ : Char → Char) : List Char :=
  specParts (splitQ raw) σ

/-- Modelled from the spec (claim reading): substitution where each pair
acts on the original text — a character is rewritten by the first pair
whose parameter matches it, and is never rewritten twice. -/
def parallelSubst (prs : List (Char × Char)) (c : Char) : Char :=
  match prs.find? (fun pr => pr.1 = c) with
  | some pr => pr.2
  | none => c

/-- Modelled from the spec (claim reading): `apply_argmap` as a one-pass
parallel substitution outside literals. -/
def applyArgmapParallel (raw : List Char) (prs : List (Char × Char)) : List Char :=
  substKeepLits raw (parallelSubst prs)

/-! ## lexerbox.rs

The logos-derived lexer.  Every token pattern starts with a distinct
command letter, so lexing is: skip whitespace and `!`-comments, dispatch
on the first character, and do a maximal munch of that token's regex.
A failed match yields the `Error` token; input no pattern can start
yields `Error` and lexing resumes at the next character.  A regex match
whose callback rejects it (invalid operator code, empty subcommand)
also yields `Error`, consuming the matched slice.

The `[a-z]` character class of the token regexes is exactly the
`VALID_VARS` set, so we reuse `isVar` for it. -/

/-- `program::LBT` (the token/instruction tree). -/
inductive LBT : Type where
  | SaveNumber (v : Char) (x : ℚ)
  | SaveStr (v : Char) (s : List Char)
  | Copy (a b : Char)
  | PrintVar (v : Char)
  | PrintStr (s : List Char)
  | MathOp (op t a b : Char)
  | BoolOp (op t a b : Char)
  | Loop (v : Char) (sub : LBT)
  | IfStatement (v : Char) (sub : LBT)
  | WhileLoop (v : Char) (sub : LBT)
  | ResetVar (v : Char)
  | ResetAll
  | GetInput (op v : Char) (n : ℚ)
  | Negate (v : Char)
  | Finish
  | Execute (v : Char) (argmap : List Char)
  | Error
deriving DecidableEq, Repr

/-- The regex class `[A-Z]`. -/
def isUpAZ (c : Char) : Bool := 'A' ≤ c && c ≤ 'Z'

/-- The regex class `[0-9]`. -/
def isDig (c : Char) : Bool := '0' ≤ c && c ≤ '9'

/-- The regex class `[A-Za-z]`. -/
def isAlphaAZ (c : Char) : Bool := isUpAZ c || isVar c

/-- The skip class `[ \t\n\f\r]`. -/
def isWhite (c : Char) : Bool :=
  c = ' ' || c = '\t' || c = '\n' || c = '\x0c' || c = '\r'

/-- Numeric value of a digit string. -/
def natOfDigits (ds : List Char) : Nat :=
  ds.foldl (fun a c => a * 10 + (c.toNat - '0'.toNat)) 0

/-- The `f64` value parsed by `save_number` from sign, integer digits and
fractional digits (modelled exactly in `ℚ`): the rational
`intpart.fracpart = (intpart * 10^d + fracpart) / 10^d`, negated under a
leading minus sign. -/
def mkNum (neg : Bool) (intDs fracDs : List Char) : ℚ :=
  let n : Nat := natOfDigits intDs * 10 ^ fracDs.length + natOfDigits fracDs
  let q : ℚ := mkRat (Int.ofNat n) (10 ^ fracDs.length)
  if neg then Rat.neg q else q

/-- Scan `[^']*'` after an opening quote: inner text and the rest after
the closing quote, or `none` if the quote is never closed. -/
def scanQuote (r : List Char) : Option (List Char × List Char) :=
  match r.dropWhile (fun c => c ≠ '\'') with
  | _ :: r3 => some (r.takeWhile (fun c => c ≠ '\''), r3)
  | [] => none

/-- `S[a-z]\-?[0-9]+(\.[0-9]+)?` tail (after `S` and the variable):
maximal munch of the number, callback `save_number`. -/
def matchSNum (v : Char) (r2 fail : List Char) : Option LBT × List Char :=
  let signed := match r2 with
    | '-' :: r3 => (true, r3)
    | _ => (false, r2)
  let ds := signed.2.takeWhile isDig
  if ds.isEmpty then (some .Error, fail)
  else
    match signed.2.dropWhile isDig with
    | '.' :: r5 =>
      let fds := r5.takeWhile isDig
      if fds.isEmpty then (some (.SaveNumber v (mkNum signed.1 ds [])), '.' :: r5)
      else (some (.SaveNumber v (mkNum signed.1 ds fds)), r5.dropWhile isDig)
    | r4 => (some (.SaveNumber v (mkNum signed.1 ds [])), r4)

/-- Tokens starting with `S`: `SaveNumber` or `SaveStr`. -/
def matchS : List Char → Option LBT × List Char
  | v :: '\'' :: r2 =>
    if isVar v then
      match scanQuote r2 with
      | some (inner, r3) => (some (.SaveStr v inner), r3)
      | none => (some .Error, v :: '\'' :: r2)
    else (some .Error, v :: '\'' :: r2)
  | v :: r2 =>
    if isVar v then matchSNum v r2 (v :: r2)
    else (some .Error, v :: r2)
  | [] => (some .Error, [])

/-- `C[a-z][a-z]` tail. -/
def matchC : List Char → Option LBT × List Char
  | a :: b :: r =>
    if isVar a && isVar b then (some (.Copy a b), r)
    else (some .Error, a :: b :: r)
  | r => (some .Error, r)

/-- Tokens starting with `P`: `PrintStr` or `PrintVar`. -/
def matchP : List Char → Option LBT × List Char
  | '\'' :: r2 =>
    match scanQuote r2 with
    | some (inner, r3) => (some (.PrintStr inner), r3)
    | none => (some .Error, '\'' :: r2)
  | v :: r2 =>
    if isVar v then (some (.PrintVar v), r2)
    else (some .Error, v :: r2)
  | [] => (some .Error, [])

/-- `M[A-Z][a-z][a-z][a-z]` tail; callback `math_op` requires the
operator to be in `ASMDEGLR`, else the token becomes `Error`. -/
def matchM : List Char → Option LBT × List Char
  | op :: a :: b :: c :: r =>
    if isUpAZ op && isVar a && isVar b && isVar c then
      if "ASMDEGLR".toList.contains op then (some (.MathOp op a b c), r)
      else (some .Error, r)
    else (some .Error, op :: a :: b :: c :: r)
  | r => (some .Error, r)

/-- `B[A-Z][a-z][a-z][a-z]` tail; callback `bool_op` requires the
operator to be in `EAOX`. -/
def matchB : List Char → Option LBT × List Char
  | op :: a :: b :: c :: r =>
    if isUpAZ op && isVar a && isVar b && isVar c then
      if "EAOX".toList.contains op then (some (.BoolOp op a b c), r)
      else (some .Error, r)
    else (some .Error, op :: a :: b :: c :: r)
  | r => (some .Error, r)

/-- Tokens starting with `R`: `ResetAll` (`RA`) or `ResetVar`. -/
def matchR : List Char → Option LBT × List Char
  | 'A' :: r => (some .ResetAll, r)
  | v :: r =>
    if isVar v then (some (.ResetVar v), r)
    else (some .Error, v :: r)
  | [] => (some .Error, [])

/-- `G[A-Z][a-z][0-9]+` tail; callback `get_input` requires the operator
to be in `NS`. -/
def matchG : List Char → Option LBT × List Char
  | op :: v :: r =>
    if isUpAZ op && isVar v then
      let ds := r.takeWhile isDig
      if ds.isEmpty then (some .Error, op :: v :: r)
      else
        let r2 := r.dropWhile isDig
        if "NS".toList.contains op then (some (.GetInput op v (natOfDigits ds : ℚ)), r2)
        else (some .Error, r2)
    else (some .Error, op :: v :: r)
  | r => (some .Error, r)

/-- `N[a-z]` tail. -/
def matchN : List Char → Option LBT × List Char
  | v :: r =>
    if isVar v then (some (.Negate v), r)
    else (some .Error, v :: r)
  | [] => (some .Error, [])

/-- `X[a-z]([a-z][a-z])*` tail: greedy, whole pairs only. -/
def matchX : List Char → Option LBT × List Char
  | v :: r2 =>
    if isVar v then
      let rn := r2.takeWhile isVar
      let n := rn.length - rn.length % 2
      (some (.Execute v (rn.take n)), r2.drop n)
    else (some .Error, v :: r2)
  | [] => (some .Error, [])

/-- `L[a-z][A-Za-z]+` (and `I`/`W`) tail: the condition variable, then a
maximal munch of letters handed to `lex_sub` (callback `base_loop`).
`subLex` is the sub-lexer producing the nested instruction. -/
def matchLIW (subLex : List Char → Option LBT) (mk : Char → LBT → LBT) :
    List Char → Option LBT × List Char
  | v :: r2 =>
    if isVar v then
      let letters := r2.takeWhile isAlphaAZ
      if letters.isEmpty then (some .Error, v :: r2)
      else
        match subLex letters with
        | some sub => (some (mk v sub), r2.dropWhile isAlphaAZ)
        | none => (some .Error, r2.dropWhile isAlphaAZ)
    else (some .Error, v :: r2)
  | [] => (some .Error, [])

/-- One lexer step: `none` for a skipped span (whitespace, comment),
`some tok` otherwise, together with the remaining input.  Always consumes
at least one character of a nonempty input.  `subLex` is the sub-lexer
used by the `L`/`I`/`W` callbacks (`lex_sub`). -/
def matchTok (subLex : List Char → Option LBT) : List Char → Option LBT × List Char
  | [] => (none, [])
  | c :: rest =>
    if isWhite c then (none, rest.dropWhile isWhite)
    else if c = '!' then (none, rest.dropWhile (fun d => !(d = '\n' || d = '\r')))
    else if c = 'S' then matchS rest
    else if c = 'C' then matchC rest
    else if c = 'P' then matchP rest
    else if c = 'M' then matchM rest
    else if c = 'B' then matchB rest
    else if c = 'L' then matchLIW subLex .Loop rest
    else if c = 'I' then matchLIW subLex .IfStatement rest
    else if c = 'W' then matchLIW subLex .WhileLoop rest
    else if c = 'R' then matchR rest
    else if c = 'G' then matchG rest
    else if c = 'N' then matchN rest
    else if c = 'F' then (some .Finish, rest)
    else if c = 'X' then matchX rest
    else (some .Error, rest)

/-- Drain the lexer into a token list (`lex.collect()`).  The fuel bounds
the number of lexer steps and the nesting of `lex_sub` calls. -/
def tokAux : Nat → List Char → List LBT
  | 0, _ => []
  | _ + 1, [] => []
  | f + 1, c :: rest =>
    match matchTok (fun l => (tokAux f l).head?) (c :: rest) with
    | (some t, rest') => t :: tokAux f rest'
    | (none, rest') => tokAux f rest'

/-- Tokenize a whole source text (each lexer step consumes at least one
character, so `cs.length` steps of fuel always suffice). -/
def tokenize (cs : List Char) : List LBT := tokAux cs.length cs

/-! ## program.rs: the evaluator

The `Program` struct is split into:
* the fields mutated while evaluating a single instruction — `finished`
  plus the shared mutable `Mach` (`data`, `output_buffer`);
* the per-run fields `PSt` (`program_list`, `program_counter`, `finished`,
  `result`);
* the read-only fields passed as parameters (`input_vec`, `loop_limit`,
  and, inside `evaluate`, the current `program_counter` used in error
  messages). -/

/-- The shared mutable state: the store and the output buffer. -/
structure Mach : Type where
  data : Store
  output : List Char
deriving DecidableEq, Repr

instance : DecidableEq (Except String Unit) := fun a b =>
  match a, b with
  | .ok (), .ok () => isTrue rfl
  | .error x, .error y =>
    if h : x = y then isTrue (by rw [h])
    else isFalse (by intro hh; injection hh; exact h (by assumption))
  | .ok (), .error _ => isFalse (by intro hh; injection hh)
  | .error _, .ok () => isFalse (by intro hh; injection hh)

/-- The per-run fields of `Program`. -/
structure PSt : Type where
  program_list : List LBT
  program_counter : Nat
  finished : Bool
  result : Except String Unit
deriving DecidableEq, Repr

/-- The initial `PSt` built by `Program::new`. -/
def initPS (l : List LBT) : PSt :=
  { program_list := l, program_counter := 0, finished := false, result := .ok () }

/-- Outcome of running possibly non-terminating, possibly panicking code:
`timeout` means the modelling fuel ran out, `panicked` models a Rust
panic (a failed `expect` or an out-of-bounds index). -/
inductive Ev (α : Type) : Type where
  | timeout : Ev α
  | panicked : Ev α
  | ok : α → Ev α
deriving DecidableEq, Repr

/-- Truncation toward zero (`f64 as i64` semantics on in-range values). -/
def ratTrunc (q : ℚ) : ℤ := if q < 0 then -(Rat.floor (-q)) else Rat.floor q

/-- The `MathOp` operator table.  `D` and `R` are exercised by no theorem
below; on a zero divisor `ℚ` division yields 0 where `f64` yields
inf/NaN. -/
def mathOpResult (op : Char) (a b : ℚ) : Option ℚ :=
  if op = 'A' then some (a + b)
  else if op = 'S' then some (a - b)
  else if op = 'M' then some (a * b)
  else if op = 'D' then some (a / b)
  else if op = 'R' then some (a - b * (ratTrunc (a / b) : ℚ))
  else if op = 'E' then some (if a = b then 1 else 0)
  else if op = 'G' then some (if a > b then 1 else 0)
  else if op = 'L' then some (if a < b then 1 else 0)
  else none

/-- The `BoolOp` operator table. -/
def boolOpResult (op : Char) (a b : Bool) : Option ℚ :=
  if op = 'E' then some (if a = b then 1 else 0)
  else if op = 'A' then some (if a && b then 1 else 0)
  else if op = 'O' then some (if a || b then 1 else 0)
  else if op = 'X' then some (if (a && !b) || (!a && b) then 1 else 0)
  else none

/-- `str::parse::<f64>` restricted to plain decimal forms (sign, digits,
optional fractional part); scientific notation and inf/nan are not
modelled, no theorem below exercises them. -/
def parseF64 (s : List Char) : Option ℚ :=
  let signed : Bool × List Char := match s with
    | '-' :: r => (true, r)
    | '+' :: r => (false, r)
    | _ => (false, s)
  let ds := signed.2.takeWhile isDig
  match signed.2.dropWhile isDig with
  | [] => if ds.isEmpty then none else some (mkNum signed.1 ds [])
  | '.' :: r2 =>
    let fds := r2.takeWhile isDig
    if !(r2.dropWhile isDig).isEmpty then none
    else if ds.isEmpty && fds.isEmpty then none
    else some (mkNum signed.1 ds fds)
  | _ => none

/-- A pending call of the evaluator: `Program::evaluate` on one
instruction, the two iteration loops inside the `Loop`/`WhileLoop` arms,
`Program::step`, or `Program::run`.  The five are mutually recursive in
the Rust code; modelling them as one fuel-indexed function keeps the
model computable by the kernel.  Each call carries the per-run state
`ps` (whose `finished` flag is `self.finished`, mutated in place by the
`Finish` arm) and the shared state `m`. -/
inductive Call : Type where
  | eval (cmd : LBT) (ps : PSt) (m : Mach)
  | loopI (n : ℤ) (sub : LBT) (ps : PSt) (m : Mach)
  | whileI (cond : Char) (sub : LBT) (ps : PSt) (m : Mach)
  | stepC (ps : PSt) (m : Mach)
  | runC (ps : PSt) (m : Mach)

/-- The evaluator.  Arguments: fuel, `input_vec`, `loop_limit`, and the
pending call.  Returns the call's `Result` together with the updated
per-run state and shared state (`Program::evaluate` touches only the
`finished` field of the former). -/
def interp : Nat → List (List Char) → Nat → Call → Ev (Except String Unit × PSt × Mach)
  | 0, _, _, _ => .timeout
  | f + 1, inp, lim, call =>
    match call with
    | .eval cmd ps m =>
      match cmd with
      | .SaveNumber v x => .ok (.ok (), ps, { m with data := setVar m.data v (.Number x) })
      | .SaveStr v s => .ok (.ok (), ps, { m with data := setVar m.data v (.Text s) })
      | .Copy a b =>
        match copyVar m.data a b with
        | none => .panicked
        | some st => .ok (.ok (), ps, { m with data := st })
      | .PrintVar v =>
        match getVar m.data v with
        | none => .panicked
        | some (x, st) => .ok (.ok (), ps, { data := st, output := m.output ++ x.display })
      | .PrintStr s => .ok (.ok (), ps, { m with output := m.output ++ s })
      | .MathOp op t a b =>
        match getVar m.data a with
        | none => .panicked
        | some (va, st1) =>
          match va with
          | .Text _ =>
            .ok (.error ("M: Variable " ++ toString a ++ " is not a number"), ps,
              { m with data := st1 })
          | .Number na =>
            match getVar st1 b with
            | none => .panicked
            | some (vb, st2) =>
              match vb with
              | .Text _ =>
                .ok (.error ("M: Variable " ++ toString b ++ " is not a number"), ps,
                  { m with data := st2 })
              | .Number nb =>
                match mathOpResult op na nb with
                | none =>
                  .ok (.error ("M: Invalid op " ++ toString op), ps, { m with data := st2 })
                | some r => .ok (.ok (), ps, { m with data := setVar st2 t (.Number r) })
      | .BoolOp op t a b =>
        match varAsBool m.data a with
        | none => .panicked
        | some (ba, st1) =>
          match varAsBool st1 b with
          | none => .panicked
          | some (bb, st2) =>
            match boolOpResult op ba bb with
            | none => .ok (.error ("B: Invalid op " ++ toString op), ps, { m with data := st2 })
            | some r => .ok (.ok (), ps, { m with data := setVar st2 t (.Number r) })
      | .ResetVar v => .ok (.ok (), ps, { m with data := resetVar m.data v })
      | .Negate v =>
        match varAsBool m.data v with
        | none => .panicked
        | some (cur, st) =>
          if cur then .ok (.ok (), ps, { m with data := resetVar st v })
          else .ok (.ok (), ps, { m with data := setVar st v (.Number 1) })
      | .ResetAll => .ok (.ok (), ps, { m with data := resetAll m.data })
      | .Loop times sub =>
        match getVar m.data times with
        | none => .panicked
        | some (tv, st) =>
          match tv with
          | .Text _ =>
            .ok (.error ("L: Variable " ++ toString times ++ " is not a number"), ps,
              { m with data := st })
          | .Number t =>
            interp f inp lim (.loopI (Rat.floor t) sub ps { m with data := st })
      | .IfStatement cond sub =>
        match varAsBool m.data cond with
        | none => .panicked
        | some (c, st) =>
          if c then interp f inp lim (.eval sub ps { m with data := st })
          else .ok (.ok (), ps, { m with data := st })
      | .WhileLoop cond sub =>
        match varAsBool m.data cond with
        | none => .panicked
        | some (c, st) =>
          if c then interp f inp lim (.whileI cond sub ps { m with data := st })
          else .ok (.ok (), ps, { m with data := st })
      | .GetInput op v num =>
        match inp.get? (Rat.floor num).toNat with
        | none => .ok (.error ("G: no input at index " ++ String.mk (numToChars num)), ps, m)
        | some input =>
          if !(isVar v) then
            .ok (.error ("G: character " ++ toString v ++ " is not a variable name"), ps, m)
          else if op = 'N' then
            match parseF64 input with
            | some x => .ok (.ok (), ps, { m with data := setVar m.data v (.Number x) })
            | none =>
              .ok (.error ("G: Could not parse input into number: " ++ String.mk input), ps, m)
          else if op = 'S' then
            .ok (.ok (), ps, { m with data := setVar m.data v (.Text input) })
          else .ok (.error ("G: invalid operation " ++ toString op), ps, m)
      | .Execute fnVar argmap =>
        match argmap.find? (fun c => !(isVar c)) with
        | some c =>
          .ok (.error ("X: Character " ++ toString c ++ " is not a variable name"), ps, m)
        | none =>
          match getVar m.data fnVar with
          | none => .panicked
          | some (fv, st) =>
            match fv with
            | .Number _ =>
              .ok (.error ("X: Variable " ++ toString fnVar ++ " is not a string"), ps,
                { m with data := st })
            | .Text prog =>
              match toPairs argmap with
              | none => .panicked
              | some prs =>
                match interp f inp lim
                    (.runC (initPS (tokenize (applyArgmap prog prs))) { m with data := st }) with
                | .timeout => .timeout
                | .panicked => .panicked
                | .ok (r, _, mm) => .ok (r, ps, mm)
      | .Finish => .ok (.ok (), { ps with finished := true }, m)
      | .Error =>
        .ok (.error ("Unrecognized instruction at counter index "
          ++ toString ps.program_counter), ps, m)
    | .loopI n sub ps m =>
      -- the `while loops > 0` loop of the `Loop` arm
      if n > 0 then
        match interp f inp lim (.eval sub ps m) with
        | .timeout => .timeout
        | .panicked => .panicked
        | .ok (.error e, ps1, m1) => .ok (.error e, ps1, m1)
        | .ok (.ok (), ps1, m1) => interp f inp lim (.loopI (n - 1) sub ps1 m1)
      else .ok (.ok (), ps, m)
    | .whileI cond sub ps m =>
      -- the `while c { .. }` loop of the `WhileLoop` arm, entered when the
      -- condition first read true: run the body, re-read, repeat
      match interp f inp lim (.eval sub ps m) with
      | .timeout => .timeout
      | .panicked => .panicked
      | .ok (.error e, ps1, m1) => .ok (.error e, ps1, m1)
      | .ok (.ok (), ps1, m1) =>
        match varAsBool m1.data cond with
        | none => .panicked
        | some (c, st) =>
          if c then interp f inp lim (.whileI cond sub ps1 { m1 with data := st })
          else .ok (.ok (), ps1, { m1 with data := st })
    | .stepC ps m =>
      -- Program::step
      if ps.finished then .ok (.error "Program is already finished.", ps, m)
      else
        match ps.program_list.get? ps.program_counter with
        | none =>
          .ok (.error ("No command found at counter index " ++ toString ps.program_counter),
            ps, m)
        | some cmd =>
          match interp f inp lim (.eval cmd ps m) with
          | .timeout => .timeout
          | .panicked => .panicked
          | .ok (r, ps1, m1) =>
            let ps2 := { ps1 with result := r }
            match r with
            | .error msg => .ok (.error msg, ps2, m1)
            | .ok () =>
              .ok (.ok (),
                { ps2 with
                  program_counter := ps.program_counter + 1,
                  finished := ps2.finished
                    || decide (ps.program_counter + 1 ≥ ps.program_list.length) },
                m1)
    | .runC ps m =>
      -- Program::run: step until finished; a failing step sets finished and
      -- returns self.result (which the missing-instruction branch of step
      -- does not update)
      if ps.finished then .ok (ps.result, ps, m)
      else
        match interp f inp lim (.stepC ps m) with
        | .timeout => .timeout
        | .panicked => .panicked
        | .ok (.error _, ps1, m1) => .ok (ps1.result, { ps1 with finished := true }, m1)
        | .ok (.ok (), ps1, m1) => interp f inp lim (.runC ps1 m1)

/-- `Program::evaluate` on one instruction. -/
def evaluate (f : Nat) (inp : List (List Char)) (lim : Nat) (cmd : LBT)
    (ps : PSt) (m : Mach) : Ev (Except String Unit × PSt × Mach) :=
  interp f inp lim (.eval cmd ps m)

/-- The iteration loop of the `Loop` arm (count already floored). -/
def loopIter (f : Nat) (inp : List (List Char)) (lim : Nat) (n : ℤ) (sub : LBT)
    (ps : PSt) (m : Mach) : Ev (Except String Unit × PSt × Mach) :=
  interp f inp lim (.loopI n sub ps m)

/-- The iteration loop of the `WhileLoop` arm. -/
def whileIter (f : Nat) (inp : List (List Char)) (lim : Nat) (cond : Char) (sub : LBT)
    (ps : PSt) (m : Mach) : Ev (Except String Unit × PSt × Mach) :=
  interp f inp lim (.whileI cond sub ps m)

/-- `Program::step`. -/
def stepP (f : Nat) (inp : List (List Char)) (lim : Nat) (ps : PSt) (m : Mach) :
    Ev (Except String Unit × PSt × Mach) :=
  interp f inp lim (.stepC ps m)

/-- `Program::run`. -/
def runP (f : Nat) (inp : List (List Char)) (lim : Nat) (ps : PSt) (m : Mach) :
    Ev (Except String Unit × PSt × Mach) :=
  interp f inp lim (.runC ps m)

/-! ## Storage lemmas -/

theorem lookupVar_insertVar_self (st : Store) (c : Char) (v : Val) :
    lookupVar (insertVar st c v) c = some v := by
  induction st with
  | nil => simp [insertVar, lookupVar]
  | cons kv t ih =>
    obtain ⟨k, w⟩ := kv
    by_cases h : k = c <;> simp [insertVar, lookupVar, h, ih]

theorem lookupVar_resetVar_self (st : Store) (c : Char) :
    lookupVar (resetVar st c) c = none := by
  induction st with
  | nil => simp [resetVar, lookupVar]
  | cons kv t ih =>
    obtain ⟨k, w⟩ := kv
    by_cases h : k = c <;>
      simp_all [resetVar, lookupVar, List.filter]

/-- C7: `var_as_bool` on a lowercase name: any `Text` value (including the
empty string) is truthy; a `Number` is truthy iff non-zero; a variable
never written materializes as `Number 0` and reads as false. -/
theorem C7_truthiness (st : Store) (c : Char) (h : isVar c = true) :
    (∀ s, lookupVar st c = some (Val.Text s) → varAsBool st c = some (true, st)) ∧
    (∀ n, lookupVar st c = some (Val.Number n) →
       varAsBool st c = some (decide (n ≠ 0), st)) ∧
    (lookupVar st c = none →
       varAsBool st c = some (false, insertVar st c (Val.Number 0))) := by
  refine ⟨fun s hs => ?_, fun n hn => ?_, fun hnone => ?_⟩ <;>
    simp [varAsBool, getVar, h, *, Val.zero]

/-- Witness for C7 at concrete stores: empty Text is truthy, a non-zero
number is truthy, `Number 0` is falsy, and an unwritten variable reads
false after materializing as `Number 0`. -/
theorem C7_truthiness_witness :
    varAsBool [('a', Val.Text [])] 'a' = some (true, [('a', Val.Text [])]) ∧
    varAsBool [('b', Val.Number 5)] 'b' = some (true, [('b', Val.Number 5)]) ∧
    varAsBool [('c', Val.Number 0)] 'c' = some (false, [('c', Val.Number 0)]) ∧
    varAsBool [] 'd' = some (false, [('d', Val.Number 0)]) := by
  refine ⟨(C7_truthiness _ 'a' (by decide)).1 [] (by decide), ?_, ?_,
    by simpa using (C7_truthiness [] 'd' (by decide)).2.2 rfl⟩
  · have := (C7_truthiness [('b', Val.Number 5)] 'b' (by decide)).2.1 5 (by decide)
    simpa using this
  · have := (C7_truthiness [('c', Val.Number 0)] 'c' (by decide)).2.1 0 (by decide)
    simpa using this

/-- C8: reading a lowercase variable that was never written, or that was
removed by `reset_var`/`reset_all`, returns `Number 0` and inserts that
binding into the map (materialize-on-read). -/
theorem C8_materialize (st : Store) (c : Char) (h : isVar c = true) :
    (lookupVar st c = none → getVar st c = some (Val.Number 0, insertVar st c (Val.Number 0))) ∧
    getVar (resetVar st c) c
      = some (Val.Number 0, insertVar (resetVar st c) c (Val.Number 0)) ∧
    getVar (resetAll st) c = some (Val.Number 0, [(c, Val.Number 0)]) ∧
    lookupVar (insertVar st c (Val.Number 0)) c = some (Val.Number 0) := by
  refine ⟨fun hnone => ?_, ?_, ?_, lookupVar_insertVar_self st c _⟩
  · simp [getVar, h, hnone, Val.zero]
  · simp [getVar, h, lookupVar_resetVar_self, Val.zero]
  · simp [getVar, resetAll, h, lookupVar, insertVar, Val.zero]

/-- Witness for C8: a fresh store, a store after `reset_var`, and a store
after `reset_all` all read `'a'` as `Number 0`, inserting the binding. -/
theorem C8_materialize_witness :
    getVar [] 'a' = some (Val.Number 0, [('a', Val.Number 0)]) ∧
    getVar (resetVar [('a', Val.Text ['x'])] 'a') 'a'
      = some (Val.Number 0, [('a', Val.Number 0)]) ∧
    getVar (resetAll [('a', Val.Text ['x'])]) 'a'
      = some (Val.Number 0, [('a', Val.Number 0)]) := by
  refine ⟨(C8_materialize [] 'a' (by decide)).1 (by decide), ?_,
    (C8_materialize [('a', Val.Text ['x'])] 'a' (by decide)).2.2.1⟩
  · have := (C8_materialize [('a', Val.Text ['x'])] 'a' (by decide)).2.1
    simpa [resetVar, insertVar] using this

/-! ## apply_argmap lemmas -/

theorem splitQ_of_not_mem (raw : List Char) (h : '\'' ∉ raw) : splitQ raw = [raw] := by
  induction raw with
  | nil => rfl
  | cons c rest ih =>
    have hc : ¬(c = '\'') := fun hr => h (hr ▸ List.mem_cons_self c rest)
    have hrest : '\'' ∉ rest := fun hr => h (List.mem_cons_of_mem c hr)
    simp [splitQ, hc, ih hrest]

theorem foldl_replaceChar_eq_map (prs : List (Char × Char)) (raw : List Char) :
    prs.foldl (fun txt pr => replaceChar txt pr.1 pr.2) raw = raw.map (chainSubst prs) := by
  induction prs generalizing raw with
  | nil => exact (List.map_id' raw).symm
  | cons pr rest ih =>
    rw [List.foldl_cons, ih (replaceChar raw pr.1 pr.2)]
    rw [show replaceChar raw pr.1 pr.2
        = raw.map (fun c => if c = pr.1 then pr.2 else c) from rfl]
    rw [List.map_map]
    rfl

/-- C1 counterexample: on stored text `a` with argmap pairs `(a,b)` and
`(b,c)`, the code produces `c` — the occurrence of parameter `a` is first
rewritten to `b` by its own pair and then rewritten again to `c` by the
*other* pair — while the claim (pairs act on the original text, each
occurrence rewritten only by its own pair's mapping) demands `b`, as the
parallel reading `applyArgmapParallel` shows. -/
theorem C1_counterexample :
    applyArgmap ['a'] [('a', 'b'), ('b', 'c')] = ['c'] ∧
    applyArgmapParallel ['a'] [('a', 'b'), ('b', 'c')] = ['b'] ∧
    (['c'] : List Char) ≠ ['b'] := by
  refine ⟨rfl, rfl, by decide⟩

/-- C1 amended: the substitution step applies the argmap pairs
*sequentially*, each pair rewriting every occurrence of its parameter in
the output of the previous pairs; on text containing no single-quote
character (so no literal masking is involved) every character of the
stored text is rewritten by the left-to-right composition of the pair
maps, and a character that no pair's parameter ever matches is left
unchanged (`chainSubst` fixes it). -/
theorem C1_sequential (raw : List Char) (prs : List (Char × Char))
    (h : '\'' ∉ raw) :
    applyArgmap raw prs = raw.map (chainSubst prs) := by
  unfold applyArgmap
  rw [splitQ_of_not_mem raw h]
  simpa [maskParts] using foldl_replaceChar_eq_map prs raw

/-- Witness for C1 amended, at the counterexample input: the sequential
composition maps `a` through both pairs to `c`. -/
theorem C1_sequential_witness :
    '\'' ∉ ['a'] ∧
    applyArgmap ['a'] [('a', 'b'), ('b', 'c')]
      = ['a'].map (chainSubst [('a', 'b'), ('b', 'c')]) ∧
    ['a'].map (chainSubst [('a', 'b'), ('b', 'c')]) = ['c'] :=
  ⟨by decide, C1_sequential ['a'] [('a', 'b'), ('b', 'c')] (by decide), by decide⟩

/-! ## C10: sources that tokenize to nothing -/

/-- C10: if a source tokenizes to zero instructions, `run()` succeeds:
the first `step` hits the missing-instruction branch, which returns an
error *without* writing `self.result`, so `run` sets `finished` and
returns the initial `Ok` result; the store and output are untouched. -/
theorem C10_empty_tokenization (src : List Char) (inp : List (List Char))
    (lim : Nat) (m : Mach) (f : Nat) (h : tokenize src = []) :
    runP (f + 2) inp lim (initPS (tokenize src)) m
      = .ok (.ok (), { initPS (tokenize src) with finished := true }, m) := by
  rw [h]
  show interp (f + 1 + 1) inp lim _ = _
  simp [interp, initPS]

/-- Witness for C10: a comment-only source produces no tokens, and
running it returns `Ok` with the store and output untouched. -/
theorem C10_empty_tokenization_witness :
    tokenize "! just a comment".toList = [] ∧
    runP 2 [] 7 (initPS (tokenize "! just a comment".toList))
        ⟨[('z', Val.Number 3)], ['x']⟩
      = .ok (.ok (), { initPS (tokenize "! just a comment".toList) with finished := true },
          ⟨[('z', Val.Number 3)], ['x']⟩) :=
  ⟨by rfl, C10_empty_tokenization _ [] 7 _ 0 (by rfl)⟩

/-! ## C2: literal preservation in apply_argmap -/

/-- The restore loop of `apply_argmap`: put the quotes back one by one,
each replacing the first occurrence of `%%%`. -/
def restoreQuotes (qs : List (List Char)) (txt : List Char) : List Char :=
  qs.foldl (fun txt q => replaceFirst pct q txt) txt

theorem applyArgmap_eq_restore (raw : List Char) (prs : List (Char × Char)) :
    applyArgmap raw prs
      = restoreQuotes (maskParts (splitQ raw)).2
          ((maskParts (splitQ raw)).1.map (chainSubst prs)) := by
  unfold applyArgmap restoreQuotes
  rcases hmq : maskParts (splitQ raw) with ⟨mm, qq⟩
  simp only [foldl_replaceChar_eq_map]

theorem isVar_ne_pct {c : Char} (h : isVar c = true) : c ≠ '%' := by
  intro he
  subst he
  exact absurd h (by decide)

theorem chainSubst_ne_pct (prs : List (Char × Char)) (c : Char) (hc : c ≠ '%')
    (ha : ∀ pr ∈ prs, pr.2 ≠ '%') : chainSubst prs c ≠ '%' := by
  induction prs generalizing c with
  | nil => exact hc
  | cons pr rest ih =>
    show chainSubst rest (if c = pr.1 then pr.2 else c) ≠ '%'
    refine ih _ ?_ (fun q hq => ha q (List.mem_cons_of_mem pr hq))
    by_cases h1 : c = pr.1
    · simpa [h1] using ha pr (List.mem_cons_self pr rest)
    · simpa [h1] using hc

theorem chainSubst_pct (prs : List (Char × Char)) (hp : ∀ pr ∈ prs, pr.1 ≠ '%') :
    chainSubst prs '%' = '%' := by
  induction prs with
  | nil => rfl
  | cons pr rest ih =>
    have h1 : ('%' : Char) ≠ pr.1 := fun he => hp pr (List.mem_cons_self pr rest) he.symm
    show chainSubst rest (if '%' = pr.1 then pr.2 else '%') = '%'
    rw [if_neg h1]
    exact ih (fun q hq => hp q (List.mem_cons_of_mem pr hq))

theorem map_pct_eq (σ : Char → Char) (hσp : σ '%' = '%') : pct.map σ = pct := by
  simp [pct, hσp]

theorem replaceFirst_cons_ne {c : Char} (hc : c ≠ '%') (q t : List Char) :
    replaceFirst pct q (c :: t) = c :: replaceFirst pct q t := by
  have hl : leadsWith pct (c :: t) = false := by
    simp [pct, leadsWith, Ne.symm hc]
  simp [replaceFirst, hl]

theorem replaceFirst_append_ne (seg : List Char) (hseg : ∀ c ∈ seg, c ≠ '%')
    (q t : List Char) :
    replaceFirst pct q (seg ++ t) = seg ++ replaceFirst pct q t := by
  induction seg with
  | nil => rfl
  | cons c s ih =>
    rw [List.cons_append, replaceFirst_cons_ne (hseg c (List.mem_cons_self c s)) q,
      ih (fun d hd => hseg d (List.mem_cons_of_mem c hd))]
    rfl

theorem replaceFirst_pct_here (q t : List Char) :
    replaceFirst pct q (pct ++ t) = q ++ t := rfl

theorem restoreQuotes_cons_ne (qs : List (List Char)) {c : Char} (hc : c ≠ '%')
    (t : List Char) : restoreQuotes qs (c :: t) = c :: restoreQuotes qs t := by
  induction qs generalizing t with
  | nil => rfl
  | cons q rest ih =>
    show restoreQuotes rest (replaceFirst pct q (c :: t)) = _
    rw [replaceFirst_cons_ne hc q t]
    exact ih _

theorem restoreQuotes_append_ne (qs : List (List Char)) (seg : List Char)
    (hseg : ∀ c ∈ seg, c ≠ '%') (t : List Char) :
    restoreQuotes qs (seg ++ t) = seg ++ restoreQuotes qs t := by
  induction seg with
  | nil => rfl
  | cons c s ih =>
    rw [List.cons_append, restoreQuotes_cons_ne qs (hseg c (List.mem_cons_self c s)),
      ih (fun d hd => hseg d (List.mem_cons_of_mem c hd))]
    rfl

theorem splitQ_mem {raw part : List Char} {c : Char}
    (hp : part ∈ splitQ raw) (hc : c ∈ part) : c ∈ raw := by
  induction raw generalizing part with
  | nil =>
    simp [splitQ] at hp
    subst hp
    simp at hc
  | cons d rest ih =>
    by_cases hd : d = '\''
    · rw [show splitQ (d :: rest) = [] :: splitQ rest by rw [splitQ, if_pos hd]] at hp
      rcases List.mem_cons.mp hp with h | h
      · subst h; simp at hc
      · exact List.mem_cons_of_mem d (ih h hc)
    · rcases hsp : splitQ rest with _ | ⟨p, ps⟩
      · rw [show splitQ (d :: rest) = [[d]] by rw [splitQ, if_neg hd, hsp]] at hp
        simp at hp
        subst hp
        simp at hc
        rw [hc]
        exact List.mem_cons_self _ _
      · rw [show splitQ (d :: rest) = (d :: p) :: ps by rw [splitQ, if_neg hd, hsp]] at hp
        rcases List.mem_cons.mp hp with h | h
        · subst h
          rcases List.mem_cons.mp hc with h | h
          · rw [h]; exact List.mem_cons_self _ _
          · exact List.mem_cons_of_mem d (ih (hsp ▸ List.mem_cons_self p ps) h)
        · exact List.mem_cons_of_mem d (ih (hsp ▸ List.mem_cons_of_mem p h) hc)

/-- The heart of C2: masking the literals, mapping every remaining
character with a placeholder-respecting `σ`, and restoring the quotes in
first-match order rebuilds exactly the literal-preserving substitution —
provided no `%` occurs in the original text. -/
theorem restore_mask_spec (n : Nat) :
    ∀ (parts : List (List Char)) (σ : Char → Char),
      parts.length ≤ n →
      (∀ part ∈ parts, ∀ c ∈ part, c ≠ '%') →
      (∀ c, c ≠ '%' → σ c ≠ '%') →
      σ '%' = '%' →
      restoreQuotes (maskParts parts).2 ((maskParts parts).1.map σ)
        = specParts parts σ := by
  induction n with
  | zero =>
    intro parts σ hlen _ _ _
    have : parts = [] := List.eq_nil_of_length_eq_zero (Nat.le_zero.mp hlen)
    subst this
    rfl
  | succ n ih =>
    intro parts σ hlen hparts hσ hσp
    match parts with
    | [] => rfl
    | [p] => rfl
    | [p, q] => rfl
    | p :: q :: r :: ps =>
      rcases hmq : maskParts (r :: ps) with ⟨mm, qq⟩
      have hmask : maskParts (p :: q :: r :: ps)
          = (p ++ pct ++ mm, ('\'' :: q ++ ['\'']) :: qq) := by
        simp [maskParts, hmq]
      rw [hmask]
      have hpσ : ∀ c ∈ p.map σ, c ≠ '%' := by
        intro c hcm
        rcases List.mem_map.mp hcm with ⟨d, hd, hde⟩
        exact hde ▸ hσ d (hparts p (List.mem_cons_self _ _) d hd)
      have hq0 : ∀ c ∈ '\'' :: q ++ ['\''], c ≠ '%' := by
        intro c hcm
        rcases List.mem_cons.mp hcm with h | h
        · subst h; decide
        · rcases List.mem_append.mp h with h | h
          · exact hparts q (List.mem_cons_of_mem _ (List.mem_cons_self _ _)) c h
          · simp at h; subst h; decide
      have step1 : (p ++ pct ++ mm).map σ = p.map σ ++ (pct ++ mm.map σ) := by
        simp [List.map_append, map_pct_eq σ hσp, List.append_assoc]
      show restoreQuotes qq
          (replaceFirst pct ('\'' :: q ++ ['\'']) ((p ++ pct ++ mm).map σ))
        = specParts (p :: q :: r :: ps) σ
      rw [step1, replaceFirst_append_ne (p.map σ) hpσ, replaceFirst_pct_here,
        restoreQuotes_append_ne qq (p.map σ) hpσ,
        restoreQuotes_append_ne qq ('\'' :: q ++ ['\'']) hq0]
      have hlen2 : (r :: ps).length ≤ n := by
        simp only [List.length_cons] at hlen ⊢
        omega
      have hrec : restoreQuotes qq (mm.map σ) = specParts (r :: ps) σ := by
        have h := ih (r :: ps) σ hlen2
          (fun part hpt => hparts part
            (List.mem_cons_of_mem _ (List.mem_cons_of_mem _ hpt)))
          hσ hσp
        rw [hmq] at h
        exact h
      rw [hrec]
      show p.map σ ++ (('\'' :: q ++ ['\'']) ++ specParts (r :: ps) σ)
        = specParts (p :: q :: r :: ps) σ
      simp [specParts, List.append_assoc]

/-- C2 counterexample: stored text `%%%'ab'` with (valid) argmap pair
`(a,z)`.  The pair touches neither `%` nor `'`, so by the claim the
literal `'ab'` must stay verbatim at its original position (the result
must be the unchanged text).  Instead the restore step replaces the
*first* `%%%` occurrence — which is the stored text's own `%%%`, not the
mask placeholder — and the literal migrates to the front. -/
theorem C2_counterexample :
    applyArgmap "%%%'ab'".toList [('a', 'z')] = "'ab'%%%".toList ∧
    "'ab'%%%".toList ≠ "%%%'ab'".toList := by
  exact ⟨by decide, by decide⟩

/-- C2 amended: *provided the stored text contains no `%` character* (so
that nothing in it can collide with the `%%%` mask placeholder),
parameter substitution with a valid argmap never rewrites characters
inside single-quoted literals: the result is exactly the stored text
with every character outside the literals rewritten (by the sequential
pair composition) and every literal kept verbatim in its original place
(`substKeepLits`).  In particular — second conjunct — executing stored
text `Sr'ab' Pr` with argmap `a→z` still prints `ab`. -/
theorem C2_literal_preservation :
    (∀ (raw : List Char) (prs : List (Char × Char)),
      '%' ∉ raw →
      (∀ pr ∈ prs, isVar pr.1 ∧ isVar pr.2) →
      applyArgmap raw prs = substKeepLits raw (chainSubst prs)) ∧
    runP 100 ["Sr'ab' Pr".toList] 1000 (initPS (tokenize "GSf0 Xfaz".toList)) ⟨[], []⟩
      = .ok (.ok (), ⟨tokenize "GSf0 Xfaz".toList, 2, true, .ok ()⟩,
          ⟨[('f', Val.Text "Sr'ab' Pr".toList), ('r', Val.Text ['a', 'b'])],
            ['a', 'b']⟩) := by
  refine ⟨fun raw prs hraw hprs => ?_, by decide⟩
  have hσ : ∀ c, c ≠ '%' → chainSubst prs c ≠ '%' := fun c hc =>
    chainSubst_ne_pct prs c hc (fun pr hpr => isVar_ne_pct (hprs pr hpr).2)
  have hσp : chainSubst prs '%' = '%' :=
    chainSubst_pct prs (fun pr hpr => isVar_ne_pct (hprs pr hpr).1)
  rw [applyArgmap_eq_restore]
  exact restore_mask_spec (splitQ raw).length (splitQ raw) (chainSubst prs)
    le_rfl (fun part hpt c hc he => hraw (he ▸ splitQ_mem hpt hc)) hσ hσp

/-- Witness for C2 amended at the spec's own example: in `Sr'ab' Pr`
the parameter `a` occurs only inside the literal, so the substituted
text is unchanged and the literal survives verbatim. -/
theorem C2_literal_preservation_witness :
    ('%' ∉ "Sr'ab' Pr".toList) ∧
    applyArgmap "Sr'ab' Pr".toList [('a', 'z')]
      = substKeepLits "Sr'ab' Pr".toList (chainSubst [('a', 'z')]) ∧
    substKeepLits "Sr'ab' Pr".toList (chainSubst [('a', 'z')]) = "Sr'ab' Pr".toList :=
  ⟨by decide, C2_literal_preservation.1 _ _ (by decide) (by decide), by decide⟩

/-! ## C5: Finish -/

/-- C5 counterexample: the claim says that after a `Finish` evaluates no
further instruction runs, even when the `Finish` is nested inside an
`Execute` body.  But `Sf'F' Xf Sa3 Pa` stores program `F` in `f`,
executes it — the nested run's `Finish` sets only the *nested* program's
flag — and then the parent happily runs `Sa3 Pa`, printing `3` (the
claim demands empty output). -/
theorem C5_counterexample :
    runP 100 [] 0 (initPS (tokenize "Sf'F' Xf Sa3 Pa".toList)) ⟨[], []⟩
      = .ok (.ok (), ⟨tokenize "Sf'F' Xf Sa3 Pa".toList, 4, true, .ok ()⟩,
          ⟨[('f', Val.Text ['F']), ('a', Val.Number 3)], ['3']⟩) ∧
    (['3'] : List Char) ≠ [] := by
  exact ⟨by decide, by decide⟩

/-- C5 amended: `Finish` always completes successfully and sets the
*executing evaluator's* finished flag; when it occurs as a top-level
instruction, `run()` halts right after it, so no later instruction of
that sequence is evaluated — in particular `Sa4 Pa F Sa3 Pa` outputs
exactly `4`.  (When `Finish` is nested, only the innermost run stops:
an enclosing Loop finishes its iterations, a WhileLoop keeps looping,
and the parent of a nested Execute continues — see the counterexample.) -/
theorem C5_finish :
    (∀ (f : Nat) (inp : List (List Char)) (lim : Nat) (ps : PSt) (m : Mach),
      evaluate (f + 1) inp lim .Finish ps m
        = .ok (.ok (), { ps with finished := true }, m)) ∧
    (∀ (f : Nat) (inp : List (List Char)) (lim : Nat) (ps : PSt) (m : Mach),
      ps.finished = false →
      ps.program_list.get? ps.program_counter = some .Finish →
      runP (f + 3) inp lim ps m
        = .ok (.ok (),
            { ps with program_counter := ps.program_counter + 1,
                      finished := true, result := .ok () }, m)) ∧
    runP 100 [] 0 (initPS (tokenize "Sa4 Pa F Sa3 Pa".toList)) ⟨[], []⟩
      = .ok (.ok (), ⟨tokenize "Sa4 Pa F Sa3 Pa".toList, 3, true, .ok ()⟩,
          ⟨[('a', Val.Number 4)], ['4']⟩) := by
  refine ⟨fun f inp lim ps m => rfl, fun f inp lim ps m hfin hget => ?_, by decide⟩
  have hget' : ps.program_list[ps.program_counter]? = some .Finish := by
    rw [← List.get?_eq_getElem?]; exact hget
  show interp (f + 2 + 1) inp lim _ = _
  simp [interp, hfin, hget', evaluate]

/-- Witness for C5 amended: a concrete top-level `Finish` halts the run
with everything else untouched. -/
theorem C5_finish_witness :
    evaluate 1 [] 0 .Finish (initPS [.Finish, .PrintStr ['x']]) ⟨[], []⟩
      = .ok (.ok (), { initPS [.Finish, .PrintStr ['x']] with finished := true }, ⟨[], []⟩) ∧
    runP 3 [] 0 (initPS [.Finish, .PrintStr ['x']]) ⟨[], []⟩
      = .ok (.ok (), { initPS [.Finish, .PrintStr ['x']] with
          program_counter := 1, finished := true, result := .ok () }, ⟨[], []⟩) :=
  ⟨C5_finish.1 0 [] 0 _ _, C5_finish.2.1 0 [] 0 _ _ (by decide) (by decide)⟩

/-! ## C6: Loop -/

/-- Specification of the `Loop` arm's iteration: evaluate the body
exactly `n` times, short-circuiting on the first error, with the same
fuel discipline as the evaluator. -/
def iterBody : Nat → List (List Char) → Nat → Nat → LBT → PSt → Mach →
    Ev (Except String Unit × PSt × Mach)
  | 0, _, _, _, _, _, _ => .timeout
  | _ + 1, _, _, 0, _, ps, m => .ok (.ok (), ps, m)
  | f + 1, inp, lim, n + 1, sub, ps, m =>
    match interp f inp lim (.eval sub ps m) with
    | .timeout => .timeout
    | .panicked => .panicked
    | .ok (.error e, ps1, m1) => .ok (.error e, ps1, m1)
    | .ok (.ok (), ps1, m1) => iterBody f inp lim n sub ps1 m1

theorem loopIter_eq_iterBody (f : Nat) (inp : List (List Char)) (lim : Nat)
    (n : ℤ) (sub : LBT) (ps : PSt) (m : Mach) :
    interp f inp lim (.loopI n sub ps m) = iterBody f inp lim n.toNat sub ps m := by
  induction f generalizing n ps m with
  | zero => rfl
  | succ f ih =>
    by_cases hn : n > 0
    · obtain ⟨k, hk⟩ : ∃ k : Nat, n.toNat = k + 1 := by
        refine ⟨(n - 1).toNat, ?_⟩
        omega
      rw [show interp (f + 1) inp lim (.loopI n sub ps m)
          = (if n > 0 then
              match interp f inp lim (.eval sub ps m) with
              | .timeout => .timeout
              | .panicked => .panicked
              | .ok (.error e, ps1, m1) => .ok (.error e, ps1, m1)
              | .ok (.ok (), ps1, m1) => interp f inp lim (.loopI (n - 1) sub ps1 m1)
            else .ok (.ok (), ps, m)) from rfl]
      rw [hk]
      simp only [hn, if_true, iterBody]
      have hk' : (n - 1).toNat = k := by omega
      cases interp f inp lim (.eval sub ps m) with
      | timeout => rfl
      | panicked => rfl
      | ok out =>
        obtain ⟨r, ps1, m1⟩ := out
        cases r with
        | error e => rfl
        | ok u =>
          cases u
          show interp f inp lim (.loopI (n - 1) sub ps1 m1) = iterBody f inp lim k sub ps1 m1
          rw [ih (n - 1) ps1 m1, hk']
    · have h0 : n.toNat = 0 := by omega
      rw [show interp (f + 1) inp lim (.loopI n sub ps m)
          = (if n > 0 then
              match interp f inp lim (.eval sub ps m) with
              | .timeout => .timeout
              | .panicked => .panicked
              | .ok (.error e, ps1, m1) => .ok (.error e, ps1, m1)
              | .ok (.ok (), ps1, m1) => interp f inp lim (.loopI (n - 1) sub ps1 m1)
            else .ok (.ok (), ps, m)) from rfl]
      rw [h0]
      simp only [hn, if_false, iterBody]

/-- C6: the `Loop` arm reads its count variable once at entry; a `Text`
count is a fatal error; a `Number` count is floored and the body is
evaluated exactly that many times — zero times when the floor is 0 or
negative — regardless of what the body does to the count variable
(`iterBody`'s count is fixed at entry). -/
theorem C6_loop :
    (∀ (f : Nat) (inp : List (List Char)) (lim : Nat) (v : Char) (sub : LBT)
       (ps : PSt) (m : Mach) (t : ℚ) (st' : Store),
      getVar m.data v = some (.Number t, st') →
      evaluate (f + 1) inp lim (.Loop v sub) ps m
        = iterBody f inp lim (Rat.floor t).toNat sub ps { m with data := st' }) ∧
    (∀ (f : Nat) (inp : List (List Char)) (lim : Nat) (v : Char) (sub : LBT)
       (ps : PSt) (m : Mach) (s : List Char) (st' : Store),
      getVar m.data v = some (.Text s, st') →
      evaluate (f + 1) inp lim (.Loop v sub) ps m
        = .ok (.error ("L: Variable " ++ toString v ++ " is not a number"), ps,
            { m with data := st' })) ∧
    (∀ (f : Nat) (inp : List (List Char)) (lim : Nat) (v : Char) (sub : LBT)
       (ps : PSt) (m : Mach) (t : ℚ) (st' : Store),
      getVar m.data v = some (.Number t, st') → t ≤ 0 →
      evaluate (f + 2) inp lim (.Loop v sub) ps m
        = .ok (.ok (), ps, { m with data := st' })) := by
  refine ⟨fun f inp lim v sub ps m t st' hv => ?_, fun f inp lim v sub ps m s st' hv => ?_,
    fun f inp lim v sub ps m t st' hv ht => ?_⟩
  · simp only [evaluate, interp, hv]
    exact loopIter_eq_iterBody f inp lim (Rat.floor t) sub ps { m with data := st' }
  · simp only [evaluate, interp, hv]
  · have hf : Rat.floor t ≤ 0 := by
      rw [Rat.floor_def', ← Rat.floor_def]
      simpa using Int.floor_mono (show t ≤ (0 : ℚ) from ht)
    simp only [evaluate, interp, hv]
    rw [if_neg (by omega : ¬ Rat.floor t > 0)]

/-- Witness for C6 at concrete inputs: a count of `3.9` runs the body
exactly three times (`xxx`), a `Text` count is the fatal `L:` error, and
a negative count runs the body zero times. -/
theorem C6_loop_witness :
    evaluate 11 [] 0 (.Loop 'a' (.PrintStr ['x']))
        (initPS [.Loop 'a' (.PrintStr ['x'])]) ⟨[('a', Val.Number (mkRat 39 10))], []⟩
      = iterBody 10 [] 0 3 (.PrintStr ['x']) (initPS [.Loop 'a' (.PrintStr ['x'])])
          ⟨[('a', Val.Number (mkRat 39 10))], []⟩ ∧
    iterBody 10 [] 0 3 (.PrintStr ['x']) (initPS [.Loop 'a' (.PrintStr ['x'])])
        ⟨[('a', Val.Number (mkRat 39 10))], []⟩
      = .ok (.ok (), initPS [.Loop 'a' (.PrintStr ['x'])],
          ⟨[('a', Val.Number (mkRat 39 10))], ['x', 'x', 'x']⟩) ∧
    evaluate 5 [] 0 (.Loop 'b' (.PrintStr ['x'])) (initPS [])
        ⟨[('b', Val.Text ['q'])], []⟩
      = .ok (.error "L: Variable b is not a number", initPS [],
          ⟨[('b', Val.Text ['q'])], []⟩) ∧
    evaluate 5 [] 0 (.Loop 'c' (.PrintStr ['x'])) (initPS [])
        ⟨[('c', Val.Number (-2))], []⟩
      = .ok (.ok (), initPS [], ⟨[('c', Val.Number (-2))], []⟩) := by
  refine ⟨?_, by decide, ?_, ?_⟩
  · have := C6_loop.1 10 [] 0 'a' (.PrintStr ['x']) (initPS [.Loop 'a' (.PrintStr ['x'])])
      ⟨[('a', Val.Number (mkRat 39 10))], []⟩ (mkRat 39 10)
      [('a', Val.Number (mkRat 39 10))] (by decide)
    simpa using this
  · have := C6_loop.2.1 4 [] 0 'b' (.PrintStr ['x']) (initPS []) ⟨[('b', Val.Text ['q'])], []⟩
      ['q'] [('b', Val.Text ['q'])] (by decide)
    simpa using this
  · have := C6_loop.2.2 3 [] 0 'c' (.PrintStr ['x']) (initPS []) ⟨[('c', Val.Number (-2))], []⟩
      (-2) [('c', Val.Number (-2))] (by decide) (by decide)
    simpa using this

/-! ## C3: error propagation -/

/-- C3: errors propagate unchanged.
1. Top level: if the instruction at the cursor evaluates to `Err e`,
   `run()` returns exactly `e`, sets `finished`, leaves the cursor on the
   failing instruction (so no later instruction of the sequence is
   evaluated) and keeps every store/output mutation the failing
   evaluation already applied (`m'`) — no rollback.
2. A body failure at any iteration of a `Loop` surfaces as the `Loop`'s
   own result, unchanged.
3. An error in the first pending iterations of the loop bodies
   short-circuits `iterBody` with the same error.
4. `IfStatement` with a true condition forwards a body error unchanged.
5. `WhileLoop` with a true condition forwards a first-iteration body
   error unchanged.
6. `Execute` forwards the nested `run()`'s error unchanged, keeping the
   nested run's store/output mutations. -/
theorem C3_error_propagation :
    (∀ (f : Nat) (inp : List (List Char)) (lim : Nat) (ps : PSt) (m : Mach)
       (cmd : LBT) (e : String) (ps' : PSt) (m' : Mach),
      ps.finished = false →
      ps.program_list.get? ps.program_counter = some cmd →
      evaluate f inp lim cmd ps m = .ok (.error e, ps', m') →
      runP (f + 2) inp lim ps m
        = .ok (.error e, { ps' with result := .error e, finished := true }, m')) ∧
    (∀ (f : Nat) (inp : List (List Char)) (lim : Nat) (v : Char) (sub : LBT)
       (ps : PSt) (m : Mach) (t : ℚ) (st' : Store) (e : String) (ps' : PSt) (m' : Mach),
      getVar m.data v = some (.Number t, st') →
      iterBody f inp lim (Rat.floor t).toNat sub ps { m with data := st' }
        = .ok (.error e, ps', m') →
      evaluate (f + 1) inp lim (.Loop v sub) ps m = .ok (.error e, ps', m')) ∧
    (∀ (f : Nat) (inp : List (List Char)) (lim : Nat) (n : Nat) (sub : LBT)
       (ps : PSt) (m : Mach) (e : String) (ps' : PSt) (m' : Mach),
      evaluate f inp lim sub ps m = .ok (.error e, ps', m') →
      iterBody (f + 1) inp lim (n + 1) sub ps m = .ok (.error e, ps', m')) ∧
    (∀ (f : Nat) (inp : List (List Char)) (lim : Nat) (cond : Char) (sub : LBT)
       (ps : PSt) (m : Mach) (st' : Store) (e : String) (ps' : PSt) (m' : Mach),
      varAsBool m.data cond = some (true, st') →
      evaluate f inp lim sub ps { m with data := st' } = .ok (.error e, ps', m') →
      evaluate (f + 1) inp lim (.IfStatement cond sub) ps m = .ok (.error e, ps', m')) ∧
    (∀ (f : Nat) (inp : List (List Char)) (lim : Nat) (cond : Char) (sub : LBT)
       (ps : PSt) (m : Mach) (st' : Store) (e : String) (ps' : PSt) (m' : Mach),
      varAsBool m.data cond = some (true, st') →
      evaluate f inp lim sub ps { m with data := st' } = .ok (.error e, ps', m') →
      evaluate (f + 2) inp lim (.WhileLoop cond sub) ps m = .ok (.error e, ps', m')) ∧
    (∀ (f : Nat) (inp : List (List Char)) (lim : Nat) (fv : Char) (argmap : List Char)
       (ps : PSt) (m : Mach) (prog : List Char) (st' : Store)
       (prs : List (Char × Char)) (e : String) (ps' : PSt) (m' : Mach),
      argmap.find? (fun c => !(isVar c)) = none →
      getVar m.data fv = some (.Text prog, st') →
      toPairs argmap = some prs →
      runP f inp lim (initPS (tokenize (applyArgmap prog prs))) { m with data := st' }
        = .ok (.error e, ps', m') →
      evaluate (f + 1) inp lim (.Execute fv argmap) ps m = .ok (.error e, ps, m')) := by
  refine ⟨?_, ?_, ?_, ?_, ?_, ?_⟩
  · intro f inp lim ps m cmd e ps' m' hfin hget heval
    have hget' : ps.program_list[ps.program_counter]? = some cmd := by
      rw [← List.get?_eq_getElem?]; exact hget
    simp only [evaluate] at heval
    show interp (f + 1 + 1) inp lim (.runC ps m) = _
    simp [interp, hfin, hget', heval]
  · intro f inp lim v sub ps m t st' e ps' m' hv hit
    simp only [evaluate, interp, hv]
    rw [loopIter_eq_iterBody]
    exact hit
  · intro f inp lim n sub ps m e ps' m' heval
    simp only [evaluate] at heval
    simp only [iterBody, heval]
  · intro f inp lim cond sub ps m st' e ps' m' hv heval
    simp only [evaluate] at heval
    simp only [evaluate, interp, hv, if_true, heval]
  · intro f inp lim cond sub ps m st' e ps' m' hv heval
    simp only [evaluate] at heval
    show interp (f + 1 + 1) inp lim (.eval (.WhileLoop cond sub) ps m) = _
    simp only [interp, hv, if_true, heval]
  · intro f inp lim fv argmap ps m prog st' prs e ps' m' hargs hv hpairs hrun
    simp only [runP] at hrun
    simp only [evaluate, interp, hargs, hv, hpairs, hrun]

/-- Witness for C3: concrete instances of each conjunct, all triggered
by the fatal `Unrecognized instruction` error of an `Error` token. -/
theorem C3_error_propagation_witness :
    runP 3 [] 0 (initPS [.Error]) ⟨[], []⟩
      = .ok (.error "Unrecognized instruction at counter index 0",
          { (initPS [.Error]) with
            result := .error "Unrecognized instruction at counter index 0",
            finished := true }, ⟨[], []⟩) ∧
    evaluate 3 [] 0 (.Loop 'a' .Error) (initPS [])
        ⟨[('a', Val.Number 1)], []⟩
      = .ok (.error "Unrecognized instruction at counter index 0", initPS [],
          ⟨[('a', Val.Number 1)], []⟩) ∧
    iterBody 2 [] 0 5 .Error (initPS []) ⟨[], []⟩
      = .ok (.error "Unrecognized instruction at counter index 0", initPS [], ⟨[], []⟩) ∧
    evaluate 2 [] 0 (.IfStatement 'b' .Error) (initPS []) ⟨[('b', Val.Number 2)], []⟩
      = .ok (.error "Unrecognized instruction at counter index 0", initPS [],
          ⟨[('b', Val.Number 2)], []⟩) ∧
    evaluate 3 [] 0 (.WhileLoop 'b' .Error) (initPS []) ⟨[('b', Val.Number 2)], []⟩
      = .ok (.error "Unrecognized instruction at counter index 0", initPS [],
          ⟨[('b', Val.Number 2)], []⟩) ∧
    evaluate 10 [] 0 (.Execute 'f' []) (initPS []) ⟨[('f', Val.Text ['Q'])], []⟩
      = .ok (.error "Unrecognized instruction at counter index 0", initPS [],
          ⟨[('f', Val.Text ['Q'])], []⟩) := by
  refine ⟨C3_error_propagation.1 1 [] 0 (initPS [.Error]) ⟨[], []⟩ .Error
      "Unrecognized instruction at counter index 0" (initPS [.Error]) ⟨[], []⟩
      (by decide) (by decide) (by decide),
    C3_error_propagation.2.1 2 [] 0 'a' .Error (initPS []) ⟨[('a', Val.Number 1)], []⟩ 1
      [('a', Val.Number 1)] "Unrecognized instruction at counter index 0" (initPS [])
      ⟨[('a', Val.Number 1)], []⟩ (by decide) (by decide),
    C3_error_propagation.2.2.1 1 [] 0 4 .Error (initPS []) ⟨[], []⟩
      "Unrecognized instruction at counter index 0" (initPS []) ⟨[], []⟩ (by decide),
    C3_error_propagation.2.2.2.1 1 [] 0 'b' .Error (initPS []) ⟨[('b', Val.Number 2)], []⟩
      [('b', Val.Number 2)] "Unrecognized instruction at counter index 0" (initPS [])
      ⟨[('b', Val.Number 2)], []⟩ (by decide) (by decide),
    C3_error_propagation.2.2.2.2.1 1 [] 0 'b' .Error (initPS []) ⟨[('b', Val.Number 2)], []⟩
      [('b', Val.Number 2)] "Unrecognized instruction at counter index 0" (initPS [])
      ⟨[('b', Val.Number 2)], []⟩ (by decide) (by decide),
    C3_error_propagation.2.2.2.2.2 9 [] 0 'f' [] (initPS []) ⟨[('f', Val.Text ['Q'])], []⟩
      ['Q'] [('f', Val.Text ['Q'])] [] "Unrecognized instruction at counter index 0"
      ⟨[.Error], 0, true, .error "Unrecognized instruction at counter index 0"⟩
      ⟨[('f', Val.Text ['Q'])], []⟩
      (by decide) (by decide) (by decide) (by decide)⟩


/-! ## C4: the loop limit is dead data -/

/-- The evaluator never consults the `loop_limit` it carries: every call
behaves identically under any two limit values (the limit is only passed
along, including into nested Execute runs). -/
theorem interp_limit_irrelevant :
    ∀ (f : Nat) (inp : List (List Char)) (l1 l2 : Nat) (call : Call),
      interp f inp l1 call = interp f inp l2 call := by
  intro f
  induction f with
  | zero => intro inp l1 l2 call; rfl
  | succ f ih =>
    intro inp l1 l2 call
    cases call with
    | eval cmd ps m =>
      cases cmd with
      | SaveNumber v x => rfl
      | SaveStr v s => rfl
      | Copy a b => rfl
      | PrintVar v => rfl
      | PrintStr s => rfl
      | MathOp op t a b => rfl
      | BoolOp op t a b => rfl
      | ResetVar v => rfl
      | Negate v => rfl
      | ResetAll => rfl
      | GetInput op v num => rfl
      | Finish => rfl
      | Error => rfl
      | Loop times sub =>
        simp only [interp]
        rcases hg : getVar m.data times with _ | ⟨tv, st⟩
        · rfl
        · cases tv with
          | Text s => rfl
          | Number t =>
            dsimp only
            exact ih inp l1 l2 (.loopI (Rat.floor t) sub ps { m with data := st })
      | IfStatement cond sub =>
        simp only [interp]
        rcases hg : varAsBool m.data cond with _ | ⟨c, st⟩
        · rfl
        · cases c
          · rfl
          · dsimp only [if_true]
            exact ih inp l1 l2 (.eval sub ps { m with data := st })
      | WhileLoop cond sub =>
        simp only [interp]
        rcases hg : varAsBool m.data cond with _ | ⟨c, st⟩
        · rfl
        · cases c
          · rfl
          · dsimp only [if_true]
            exact ih inp l1 l2 (.whileI cond sub ps { m with data := st })
      | Execute fv argmap =>
        simp only [interp]
        rcases hf : argmap.find? (fun c => !(isVar c)) with _ | c
        · rcases hg : getVar m.data fv with _ | ⟨fvv, st⟩
          · rfl
          · cases fvv with
            | Number q => rfl
            | Text prog =>
              rcases hp : toPairs argmap with _ | prs
              · rfl
              · dsimp only
                rw [ih inp l1 l2
                  (.runC (initPS (tokenize (applyArgmap prog prs))) { m with data := st })]
        · rfl
    | loopI n sub ps m =>
      by_cases hn : n > 0
      · simp only [interp, if_pos hn]
        rw [ih inp l1 l2 (.eval sub ps m)]
        cases hE : interp f inp l2 (.eval sub ps m) with
        | timeout => rfl
        | panicked => rfl
        | ok out =>
          obtain ⟨r, ps1, m1⟩ := out
          cases r with
          | error e => rfl
          | ok u =>
            cases u
            exact ih inp l1 l2 (.loopI (n - 1) sub ps1 m1)
      · simp only [interp, if_neg hn]
    | whileI cond sub ps m =>
      simp only [interp]
      rw [ih inp l1 l2 (.eval sub ps m)]
      cases hE : interp f inp l2 (.eval sub ps m) with
      | timeout => rfl
      | panicked => rfl
      | ok out =>
        obtain ⟨r, ps1, m1⟩ := out
        cases r with
        | error e => rfl
        | ok u =>
          cases u
          dsimp only
          rcases hv : varAsBool m1.data cond with _ | ⟨c, st⟩
          · rfl
          · cases c
            · rfl
            · dsimp only [if_true]
              exact ih inp l1 l2 (.whileI cond sub ps1 { m1 with data := st })
    | stepC ps m =>
      cases hfin : ps.finished with
      | true => simp [interp, hfin]
      | false =>
        simp only [interp, hfin]
        rcases hg : ps.program_list.get? ps.program_counter with _ | cmd
        · rfl
        · dsimp only
          rw [ih inp l1 l2 (.eval cmd ps m)]
    | runC ps m =>
      cases hfin : ps.finished with
      | true => simp [interp, hfin]
      | false =>
        simp only [interp, hfin]
        rw [ih inp l1 l2 (.stepC ps m)]
        cases hE : interp f inp l2 (.stepC ps m) with
        | timeout => rfl
        | panicked => rfl
        | ok out =>
          obtain ⟨r, ps1, m1⟩ := out
          cases r with
          | error e => rfl
          | ok u =>
            cases u
            exact ih inp l1 l2 (.runC ps1 m1)

/-- C4: the loop-limit bound has no effect on evaluation: running any
program under any two limits gives the same terminal result, final
store, output, cursor and flags. -/
theorem C4_loop_limit_dead (f : Nat) (inp : List (List Char)) (l1 l2 : Nat)
    (ps : PSt) (m : Mach) :
    runP f inp l1 ps m = runP f inp l2 ps m :=
  interp_limit_irrelevant f inp l1 l2 (.runC ps m)


/-! ## C9: tokenizer-produced instructions never reach a panicking branch

`lexOK` is the well-formedness invariant the token regexes guarantee:
every variable operand is a lowercase letter, and an `Execute` argmap is
an even-length string of lowercase letters. -/

def lexOK : LBT → Bool
  | .SaveNumber v _ => isVar v
  | .SaveStr v _ => isVar v
  | .Copy a b => isVar a && isVar b
  | .PrintVar v => isVar v
  | .PrintStr _ => true
  | .MathOp _ t a b => isVar t && isVar a && isVar b
  | .BoolOp _ t a b => isVar t && isVar a && isVar b
  | .Loop v sub => isVar v && lexOK sub
  | .IfStatement v sub => isVar v && lexOK sub
  | .WhileLoop v sub => isVar v && lexOK sub
  | .ResetVar v => isVar v
  | .ResetAll => true
  | .GetInput _ v _ => isVar v
  | .Negate v => isVar v
  | .Finish => true
  | .Execute v am => isVar v && am.all isVar && (am.length % 2 == 0)
  | .Error => true

theorem matchSNum_ok {v : Char} (hv : isVar v = true) {r2 fail : List Char}
    {t : LBT} {rest : List Char} (h : matchSNum v r2 fail = (some t, rest)) :
    lexOK t = true := by
  simp only [matchSNum] at h
  repeat' split at h
  all_goals (cases h; simp_all [lexOK])

theorem matchS_ok {cs : List Char} {t : LBT} {rest : List Char}
    (h : matchS cs = (some t, rest)) : lexOK t = true := by
  simp only [matchS] at h
  repeat' split at h
  all_goals first
    | (cases h; simp_all [lexOK])
    | (exact matchSNum_ok (by assumption) h)

theorem matchC_ok {cs : List Char} {t : LBT} {rest : List Char}
    (h : matchC cs = (some t, rest)) : lexOK t = true := by
  simp only [matchC] at h
  repeat' split at h
  all_goals (cases h; simp_all [lexOK])

theorem matchP_ok {cs : List Char} {t : LBT} {rest : List Char}
    (h : matchP cs = (some t, rest)) : lexOK t = true := by
  simp only [matchP] at h
  repeat' split at h
  all_goals (cases h; simp_all [lexOK])

theorem matchM_ok {cs : List Char} {t : LBT} {rest : List Char}
    (h : matchM cs = (some t, rest)) : lexOK t = true := by
  simp only [matchM] at h
  repeat' split at h
  all_goals (cases h; simp_all [lexOK])

theorem matchB_ok {cs : List Char} {t : LBT} {rest : List Char}
    (h : matchB cs = (some t, rest)) : lexOK t = true := by
  simp only [matchB] at h
  repeat' split at h
  all_goals (cases h; simp_all [lexOK])

theorem matchR_ok {cs : List Char} {t : LBT} {rest : List Char}
    (h : matchR cs = (some t, rest)) : lexOK t = true := by
  simp only [matchR] at h
  repeat' split at h
  all_goals (cases h; simp_all [lexOK])

theorem matchG_ok {cs : List Char} {t : LBT} {rest : List Char}
    (h : matchG cs = (some t, rest)) : lexOK t = true := by
  simp only [matchG] at h
  repeat' split at h
  all_goals (cases h; simp_all [lexOK])

theorem matchN_ok {cs : List Char} {t : LBT} {rest : List Char}
    (h : matchN cs = (some t, rest)) : lexOK t = true := by
  simp only [matchN] at h
  repeat' split at h
  all_goals (cases h; simp_all [lexOK])

theorem matchX_ok {cs : List Char} {t : LBT} {rest : List Char}
    (h : matchX cs = (some t, rest)) : lexOK t = true := by
  rcases cs with _ | ⟨v, r2⟩
  · cases h; decide
  · by_cases hv : isVar v = true
    · simp only [matchX, hv, if_true] at h
      cases h
      have hall : ((r2.takeWhile isVar).take
          ((r2.takeWhile isVar).length - (r2.takeWhile isVar).length % 2)).all isVar
          = true := by
        rw [List.all_eq_true]
        intro x hx
        exact List.mem_takeWhile_imp (List.take_subset _ _ hx)
      have hlen : ((r2.takeWhile isVar).take
          ((r2.takeWhile isVar).length - (r2.takeWhile isVar).length % 2)).length % 2
          = 0 := by
        rw [List.length_take]
        omega
      simp [lexOK, hv, hall, hlen]
      omega
    · simp only [matchX, hv, if_false] at h
      cases h
      decide

theorem matchLIW_ok {subLex : List Char → Option LBT} {mk : Char → LBT → LBT}
    (hsub : ∀ l t, subLex l = some t → lexOK t = true)
    (hmk : ∀ v sub, isVar v = true → lexOK sub = true → lexOK (mk v sub) = true)
    {cs : List Char} {t : LBT} {rest : List Char}
    (h : matchLIW subLex mk cs = (some t, rest)) : lexOK t = true := by
  rcases cs with _ | ⟨v, r2⟩
  · simp only [matchLIW] at h
    cases h
    decide
  · by_cases hv : isVar v = true
    · simp only [matchLIW, hv, if_true] at h
      by_cases hemp : (r2.takeWhile isAlphaAZ).isEmpty = true
      · simp only [hemp, if_true] at h
        cases h
        decide
      · simp only [hemp, if_false] at h
        rcases hsl : subLex (r2.takeWhile isAlphaAZ) with _ | sub
        · simp only [hsl] at h
          cases h
          decide
        · simp only [hsl] at h
          cases h
          exact hmk v sub hv (hsub _ _ hsl)
    · simp only [matchLIW, hv, if_false] at h
      cases h
      decide

theorem matchTok_ok {subLex : List Char → Option LBT}
    (hsub : ∀ l t, subLex l = some t → lexOK t = true)
    {cs : List Char} {t : LBT} {rest : List Char}
    (h : matchTok subLex cs = (some t, rest)) : lexOK t = true := by
  have hmkL : ∀ v sub, isVar v = true → lexOK sub = true →
      lexOK (LBT.Loop v sub) = true := fun v sub hv hs => by simp [lexOK, hv, hs]
  have hmkI : ∀ v sub, isVar v = true → lexOK sub = true →
      lexOK (LBT.IfStatement v sub) = true := fun v sub hv hs => by simp [lexOK, hv, hs]
  have hmkW : ∀ v sub, isVar v = true → lexOK sub = true →
      lexOK (LBT.WhileLoop v sub) = true := fun v sub hv hs => by simp [lexOK, hv, hs]
  rcases cs with _ | ⟨c, cs2⟩
  · simp [matchTok] at h
  · simp only [matchTok] at h
    by_cases h0 : isWhite c = true
    · rw [if_pos h0] at h
      simp at h
    · rw [if_neg h0] at h
      by_cases h1 : c = '!'
      · rw [if_pos h1] at h
        simp at h
      · rw [if_neg h1] at h
        by_cases h2 : c = 'S'
        · rw [if_pos h2] at h
          exact matchS_ok h
        · rw [if_neg h2] at h
          by_cases h3 : c = 'C'
          · rw [if_pos h3] at h
            exact matchC_ok h
          · rw [if_neg h3] at h
            by_cases h4 : c = 'P'
            · rw [if_pos h4] at h
              exact matchP_ok h
            · rw [if_neg h4] at h
              by_cases h5 : c = 'M'
              · rw [if_pos h5] at h
                exact matchM_ok h
              · rw [if_neg h5] at h
                by_cases h6 : c = 'B'
                · rw [if_pos h6] at h
                  exact matchB_ok h
                · rw [if_neg h6] at h
                  by_cases h7 : c = 'L'
                  · rw [if_pos h7] at h
                    exact matchLIW_ok hsub hmkL h
                  · rw [if_neg h7] at h
                    by_cases h8 : c = 'I'
                    · rw [if_pos h8] at h
                      exact matchLIW_ok hsub hmkI h
                    · rw [if_neg h8] at h
                      by_cases h9 : c = 'W'
                      · rw [if_pos h9] at h
                        exact matchLIW_ok hsub hmkW h
                      · rw [if_neg h9] at h
                        by_cases h10 : c = 'R'
                        · rw [if_pos h10] at h
                          exact matchR_ok h
                        · rw [if_neg h10] at h
                          by_cases h11 : c = 'G'
                          · rw [if_pos h11] at h
                            exact matchG_ok h
                          · rw [if_neg h11] at h
                            by_cases h12 : c = 'N'
                            · rw [if_pos h12] at h
                              exact matchN_ok h
                            · rw [if_neg h12] at h
                              by_cases h13 : c = 'F'
                              · rw [if_pos h13] at h
                                cases h
                                decide
                              · rw [if_neg h13] at h
                                by_cases h14 : c = 'X'
                                · rw [if_pos h14] at h
                                  exact matchX_ok h
                                · rw [if_neg h14] at h
                                  cases h
                                  decide

theorem head?_mem_LBT {l : List LBT} {t : LBT} (h : l.head? = some t) : t ∈ l := by
  cases l with
  | nil => simp at h
  | cons a l2 =>
    simp at h
    rw [h]
    exact List.mem_cons_self _ _

/-- Every token the lexer produces satisfies the regex invariant. -/
theorem tokAux_ok : ∀ (f : Nat) (cs : List Char) (t : LBT),
    t ∈ tokAux f cs → lexOK t = true := by
  intro f
  induction f with
  | zero => intro cs t ht; simp [tokAux] at ht
  | succ f ih =>
    intro cs t ht
    rcases cs with _ | ⟨c, rest⟩
    · simp [tokAux] at ht
    · unfold tokAux at ht
      rcases hmt : matchTok (fun l => (tokAux f l).head?) (c :: rest) with ⟨ot, rest2⟩
      rw [hmt] at ht
      cases ot with
      | some t0 =>
        dsimp only at ht
        rcases List.mem_cons.mp ht with he | hm
        · exact he ▸ matchTok_ok (fun l u hu => ih l u (head?_mem_LBT hu)) hmt
        · exact ih rest2 t hm
      | none =>
        dsimp only at ht
        exact ih rest2 t ht


theorem getVar_isVar (st : Store) (c : Char) (h : isVar c = true) :
    ∃ v st2, getVar st c = some (v, st2) := by
  rcases hl : lookupVar st c with _ | v
  · exact ⟨Val.zero, insertVar st c Val.zero, by simp [getVar, h, hl]⟩
  · exact ⟨v, st, by simp [getVar, h, hl]⟩

theorem varAsBool_isVar (st : Store) (c : Char) (h : isVar c = true) :
    ∃ b st2, varAsBool st c = some (b, st2) := by
  obtain ⟨v, st2, hg⟩ := getVar_isVar st c h
  cases v with
  | Text sv => exact ⟨true, st2, by simp [varAsBool, hg]⟩
  | Number n => exact ⟨decide (n ≠ 0), st2, by simp [varAsBool, hg]⟩

theorem copyVar_isVar (st : Store) (a b : Char) (h : isVar a = true) :
    ∃ st2, copyVar st a b = some st2 := by
  obtain ⟨v, st2, hg⟩ := getVar_isVar st a h
  exact ⟨setVar st2 b v, by simp [copyVar, hg]⟩

theorem toPairs_even : ∀ (am : List Char), am.length % 2 = 0 → ∃ prs, toPairs am = some prs
  | [], _ => ⟨[], rfl⟩
  | [_], h => by simp at h
  | x :: y :: rest, h => by
    obtain ⟨prs, hp⟩ := toPairs_even rest (by simp [List.length_cons] at h; omega)
    exact ⟨(x, y) :: prs, by simp [toPairs, hp]⟩

/-- The per-run state a pending call operates on. -/
def callPS : Call → PSt
  | .eval _ ps _ => ps
  | .loopI _ _ ps _ => ps
  | .whileI _ _ ps _ => ps
  | .stepC ps _ => ps
  | .runC ps _ => ps

/-- Evaluation never changes a program's instruction list. -/
theorem interp_preserves_list :
    ∀ (f : Nat) (inp : List (List Char)) (lim : Nat) (call : Call)
      (r : Except String Unit) (ps' : PSt) (m' : Mach),
      interp f inp lim call = .ok (r, ps', m') →
      ps'.program_list = (callPS call).program_list := by
  intro f
  induction f with
  | zero => intro inp lim call r ps' m' h; simp [interp] at h
  | succ f ih =>
    intro inp lim call r ps' m' h
    cases call with
    | eval cmd ps m =>
      cases cmd with
      | SaveNumber v x => simp only [interp] at h; cases h; rfl
      | SaveStr v sv => simp only [interp] at h; cases h; rfl
      | PrintStr sv => simp only [interp] at h; cases h; rfl
      | ResetVar v => simp only [interp] at h; cases h; rfl
      | ResetAll => simp only [interp] at h; cases h; rfl
      | Finish => simp only [interp] at h; cases h; rfl
      | Error => simp only [interp] at h; cases h; rfl
      | Copy a b =>
        simp only [interp] at h
        rcases hc : copyVar m.data a b with _ | st2 <;> simp only [hc] at h
        · cases h
        · cases h; rfl
      | PrintVar v =>
        simp only [interp] at h
        rcases hg : getVar m.data v with _ | ⟨x, st⟩ <;> simp only [hg] at h
        · cases h
        · cases h; rfl
      | MathOp op tg a b =>
        simp only [interp] at h
        rcases hga : getVar m.data a with _ | ⟨va, st1⟩ <;> simp only [hga] at h
        · cases h
        · cases va with
          | Text sv => cases h; rfl
          | Number na =>
            rcases hgb : getVar st1 b with _ | ⟨vb, st2⟩ <;> simp only [hgb] at h
            · cases h
            · cases vb with
              | Text sv => cases h; rfl
              | Number nb =>
                rcases hmo : mathOpResult op na nb with _ | rr <;> simp only [hmo] at h
                · cases h; rfl
                · cases h; rfl
      | BoolOp op tg a b =>
        simp only [interp] at h
        rcases hba : varAsBool m.data a with _ | ⟨ba, st1⟩ <;> simp only [hba] at h
        · cases h
        · rcases hbb : varAsBool st1 b with _ | ⟨bb, st2⟩ <;> simp only [hbb] at h
          · cases h
          · rcases hbo : boolOpResult op ba bb with _ | rr <;> simp only [hbo] at h
            · cases h; rfl
            · cases h; rfl
      | Negate v =>
        simp only [interp] at h
        rcases hv : varAsBool m.data v with _ | ⟨cur, st⟩ <;> simp only [hv] at h
        · cases h
        · cases cur
          · rw [if_neg (by simp)] at h; cases h; rfl
          · rw [if_pos rfl] at h; cases h; rfl
      | Loop times sub =>
        simp only [interp] at h
        rcases hg : getVar m.data times with _ | ⟨tv, st⟩ <;> simp only [hg] at h
        · cases h
        · cases tv with
          | Text sv => cases h; rfl
          | Number tq =>
            exact ih inp lim (.loopI (Rat.floor tq) sub ps { m with data := st }) r ps' m' h
      | IfStatement cond sub =>
        simp only [interp] at h
        rcases hv : varAsBool m.data cond with _ | ⟨c, st⟩ <;> simp only [hv] at h
        · cases h
        · cases c
          · rw [if_neg (by simp)] at h; cases h; rfl
          · rw [if_pos rfl] at h
            exact ih inp lim (.eval sub ps { m with data := st }) r ps' m' h
      | WhileLoop cond sub =>
        simp only [interp] at h
        rcases hv : varAsBool m.data cond with _ | ⟨c, st⟩ <;> simp only [hv] at h
        · cases h
        · cases c
          · rw [if_neg (by simp)] at h; cases h; rfl
          · rw [if_pos rfl] at h
            exact ih inp lim (.whileI cond sub ps { m with data := st }) r ps' m' h
      | GetInput op v num =>
        simp only [interp] at h
        rcases hi : inp.get? (Rat.floor num).toNat with _ | input <;> simp only [hi] at h
        · cases h; rfl
        · by_cases h1 : (!(isVar v)) = true
          · rw [if_pos h1] at h; cases h; rfl
          · rw [if_neg h1] at h
            by_cases h2 : op = 'N'
            · rw [if_pos h2] at h
              rcases hp : parseF64 input with _ | x <;> simp only [hp] at h
              · cases h; rfl
              · cases h; rfl
            · rw [if_neg h2] at h
              by_cases h3 : op = 'S'
              · rw [if_pos h3] at h; cases h; rfl
              · rw [if_neg h3] at h; cases h; rfl
      | Execute fv argmap =>
        simp only [interp] at h
        rcases hf : argmap.find? (fun c => !(isVar c)) with _ | c <;> simp only [hf] at h
        · rcases hg : getVar m.data fv with _ | ⟨fvv, st⟩ <;> simp only [hg] at h
          · cases h
          · cases fvv with
            | Number q => cases h; rfl
            | Text prog =>
              rcases hp : toPairs argmap with _ | prs <;> simp only [hp] at h
              · cases h
              · rcases hr : interp f inp lim
                    (.runC (initPS (tokenize (applyArgmap prog prs)))
                      { m with data := st }) with _ | _ | ⟨r0, psx, mm⟩ <;>
                  simp only [hr] at h
                · cases h
                · cases h
                · cases h; rfl
        · cases h; rfl
    | loopI n sub ps m =>
      by_cases hn : n > 0
      · simp only [interp, if_pos hn] at h
        rcases hE : interp f inp lim (.eval sub ps m) with _ | _ | ⟨r0, ps1, m1⟩ <;>
          simp only [hE] at h
        · cases h
        · cases h
        · cases r0 with
          | error e =>
            have hl := ih inp lim (.eval sub ps m) _ ps1 m1 hE
            cases h
            exact hl
          | ok u =>
            cases u
            exact (ih inp lim (.loopI (n - 1) sub ps1 m1) r ps' m' h).trans
              (ih inp lim (.eval sub ps m) _ ps1 m1 hE)
      · simp only [interp, if_neg hn] at h
        cases h; rfl
    | whileI cond sub ps m =>
      simp only [interp] at h
      rcases hE : interp f inp lim (.eval sub ps m) with _ | _ | ⟨r0, ps1, m1⟩ <;>
        simp only [hE] at h
      · cases h
      · cases h
      · cases r0 with
        | error e =>
          have hl := ih inp lim (.eval sub ps m) _ ps1 m1 hE
          cases h
          exact hl
        | ok u =>
          cases u
          rcases hv : varAsBool m1.data cond with _ | ⟨c, st⟩ <;> simp only [hv] at h
          · cases h
          · cases c
            · rw [if_neg (by simp)] at h
              have hl := ih inp lim (.eval sub ps m) _ ps1 m1 hE
              cases h
              exact hl
            · rw [if_pos rfl] at h
              exact (ih inp lim (.whileI cond sub ps1 { m1 with data := st }) r ps' m' h).trans
                (ih inp lim (.eval sub ps m) _ ps1 m1 hE)
    | stepC ps m =>
      by_cases hfin : ps.finished = true
      · simp only [interp, if_pos hfin] at h
        cases h; rfl
      · simp only [interp, if_neg hfin] at h
        rcases hg : ps.program_list.get? ps.program_counter with _ | cmd <;>
          simp only [hg] at h
        · cases h; rfl
        · rcases hE : interp f inp lim (.eval cmd ps m) with _ | _ | ⟨r0, ps1, m1⟩ <;>
            simp only [hE] at h
          · cases h
          · cases h
          · cases r0 with
            | error e =>
              have hl := ih inp lim (.eval cmd ps m) _ ps1 m1 hE
              cases h
              simpa using hl
            | ok u =>
              cases u
              have hl := ih inp lim (.eval cmd ps m) _ ps1 m1 hE
              cases h
              simpa using hl
    | runC ps m =>
      by_cases hfin : ps.finished = true
      · simp only [interp, if_pos hfin] at h
        cases h; rfl
      · simp only [interp, if_neg hfin] at h
        rcases hE : interp f inp lim (.stepC ps m) with _ | _ | ⟨r0, ps1, m1⟩ <;>
          simp only [hE] at h
        · cases h
        · cases h
        · cases r0 with
          | error e =>
            have hl := ih inp lim (.stepC ps m) _ ps1 m1 hE
            cases h
            simpa using hl
          | ok u =>
            cases u
            exact (ih inp lim (.runC ps1 m1) r ps' m' h).trans
              (ih inp lim (.stepC ps m) _ ps1 m1 hE)


/-- Well-formedness of a pending call: the instruction(s) it can touch
satisfy the lexer invariant. -/
def callOK : Call → Prop
  | .eval cmd _ _ => lexOK cmd = true
  | .loopI _ sub _ _ => lexOK sub = true
  | .whileI cond sub _ _ => isVar cond = true ∧ lexOK sub = true
  | .stepC ps _ => ∀ t ∈ ps.program_list, lexOK t = true
  | .runC ps _ => ∀ t ∈ ps.program_list, lexOK t = true

/-- On lexer-well-formed calls the evaluator never panics: every
`expect`/indexing failure branch (modelled by `Ev.panicked`) is
unreachable. -/
theorem interp_no_panic :
    ∀ (f : Nat) (inp : List (List Char)) (lim : Nat) (call : Call),
      callOK call → interp f inp lim call ≠ .panicked := by
  intro f
  induction f with
  | zero => intro inp lim call _ h; simp [interp] at h
  | succ f ih =>
    intro inp lim call hOK
    cases call with
    | eval cmd ps m =>
      cases cmd with
      | SaveNumber v x => simp [interp]
      | SaveStr v sv => simp [interp]
      | PrintStr sv => simp [interp]
      | ResetVar v => simp [interp]
      | ResetAll => simp [interp]
      | Finish => simp [interp]
      | Error => simp [interp]
      | Copy a b =>
        simp only [lexOK, callOK, Bool.and_eq_true] at hOK
        obtain ⟨st2, hc⟩ := copyVar_isVar m.data a b hOK.1
        simp [interp, hc]
      | PrintVar v =>
        simp only [lexOK, callOK] at hOK
        obtain ⟨x, st, hg⟩ := getVar_isVar m.data v hOK
        simp [interp, hg]
      | MathOp op tg a b =>
        simp only [lexOK, callOK, Bool.and_eq_true] at hOK
        obtain ⟨va, st1, hga⟩ := getVar_isVar m.data a hOK.1.2
        simp only [interp, hga]
        cases va with
        | Text sv => simp
        | Number na =>
          obtain ⟨vb, st2, hgb⟩ := getVar_isVar st1 b hOK.2
          simp only [hgb]
          cases vb with
          | Text sv => simp
          | Number nb =>
            rcases hmo : mathOpResult op na nb with _ | rr <;> simp [hmo]
      | BoolOp op tg a b =>
        simp only [lexOK, callOK, Bool.and_eq_true] at hOK
        obtain ⟨ba, st1, hba⟩ := varAsBool_isVar m.data a hOK.1.2
        simp only [interp, hba]
        obtain ⟨bb, st2, hbb⟩ := varAsBool_isVar st1 b hOK.2
        simp only [hbb]
        rcases hbo : boolOpResult op ba bb with _ | rr <;> simp [hbo]
      | Negate v =>
        simp only [lexOK, callOK] at hOK
        obtain ⟨cur, st, hv⟩ := varAsBool_isVar m.data v hOK
        simp only [interp, hv]
        cases cur <;> simp
      | Loop times sub =>
        simp only [lexOK, callOK, Bool.and_eq_true] at hOK
        obtain ⟨tv, st, hg⟩ := getVar_isVar m.data times hOK.1
        simp only [interp, hg]
        cases tv with
        | Text sv => simp
        | Number tq =>
          exact ih inp lim (.loopI (Rat.floor tq) sub ps { m with data := st }) hOK.2
      | IfStatement cond sub =>
        simp only [lexOK, callOK, Bool.and_eq_true] at hOK
        obtain ⟨c, st, hv⟩ := varAsBool_isVar m.data cond hOK.1
        simp only [interp, hv]
        cases c
        · simp
        · rw [if_pos rfl]
          exact ih inp lim (.eval sub ps { m with data := st }) hOK.2
      | WhileLoop cond sub =>
        simp only [lexOK, callOK, Bool.and_eq_true] at hOK
        obtain ⟨c, st, hv⟩ := varAsBool_isVar m.data cond hOK.1
        simp only [interp, hv]
        cases c
        · simp
        · rw [if_pos rfl]
          exact ih inp lim (.whileI cond sub ps { m with data := st }) ⟨hOK.1, hOK.2⟩
      | GetInput op v num =>
        simp only [interp]
        rcases hi : inp.get? (Rat.floor num).toNat with _ | input <;> simp only [hi]
        · simp
        · by_cases h1 : (!(isVar v)) = true
          · rw [if_pos h1]; simp
          · rw [if_neg h1]
            by_cases h2 : op = 'N'
            · rw [if_pos h2]
              rcases hp : parseF64 input with _ | x <;> simp [hp]
            · rw [if_neg h2]
              by_cases h3 : op = 'S'
              · rw [if_pos h3]; simp
              · rw [if_neg h3]; simp
      | Execute fv argmap =>
        simp only [lexOK, callOK, Bool.and_eq_true] at hOK
        simp only [interp]
        rcases hf : argmap.find? (fun c => !(isVar c)) with _ | c <;> simp only [hf]
        · obtain ⟨fvv, st, hg⟩ := getVar_isVar m.data fv hOK.1.1
          simp only [hg]
          cases fvv with
          | Number q => simp
          | Text prog =>
            obtain ⟨prs, hp⟩ := toPairs_even argmap (by simpa using hOK.2)
            simp only [hp]
            rcases hr : interp f inp lim
                (.runC (initPS (tokenize (applyArgmap prog prs))) { m with data := st })
              with _ | _ | ⟨r0, psx, mm⟩
            · simp
            · exact absurd hr (ih inp lim _ (fun t ht => tokAux_ok _ _ t ht))
            · simp
        · simp
    | loopI n sub ps m =>
      by_cases hn : n > 0
      · simp only [interp, if_pos hn]
        rcases hE : interp f inp lim (.eval sub ps m) with _ | _ | ⟨r0, ps1, m1⟩
        · simp
        · exact absurd hE (ih inp lim (.eval sub ps m) hOK)
        · cases r0 with
          | error e => simp
          | ok u =>
            cases u
            exact ih inp lim (.loopI (n - 1) sub ps1 m1) hOK
      · simp [interp, if_neg hn]
    | whileI cond sub ps m =>
      simp only [interp]
      rcases hE : interp f inp lim (.eval sub ps m) with _ | _ | ⟨r0, ps1, m1⟩
      · simp
      · exact absurd hE (ih inp lim (.eval sub ps m) hOK.2)
      · cases r0 with
        | error e => simp
        | ok u =>
          cases u
          obtain ⟨c, st, hv⟩ := varAsBool_isVar m1.data cond hOK.1
          simp only [hv]
          cases c
          · simp
          · rw [if_pos rfl]
            exact ih inp lim (.whileI cond sub ps1 { m1 with data := st }) hOK
    | stepC ps m =>
      by_cases hfin : ps.finished = true
      · simp [interp, if_pos hfin]
      · simp only [interp, if_neg hfin]
        rcases hg : ps.program_list.get? ps.program_counter with _ | cmd <;>
          simp only [hg]
        · simp
        · rcases hE : interp f inp lim (.eval cmd ps m) with _ | _ | ⟨r0, ps1, m1⟩ <;>
            simp only [hE]
          · simp
          · exact absurd hE (ih inp lim (.eval cmd ps m) (hOK cmd (List.get?_mem hg)))
          · cases r0 with
            | error e => simp
            | ok u => cases u; simp
    | runC ps m =>
      by_cases hfin : ps.finished = true
      · simp [interp, if_pos hfin]
      · simp only [interp, if_neg hfin]
        rcases hE : interp f inp lim (.stepC ps m) with _ | _ | ⟨r0, ps1, m1⟩
        · simp
        · exact absurd hE (ih inp lim (.stepC ps m) hOK)
        · cases r0 with
          | error e => simp
          | ok u =>
            cases u
            have hlist := interp_preserves_list f inp lim (.stepC ps m) _ ps1 m1 hE
            refine ih inp lim (.runC ps1 m1) ?_
            intro t ht
            exact hOK t (by simpa [hlist] using ht)

/-- C9: running any tokenizer-produced program never reaches a panicking
branch (the `expect` calls on `get_var`/`var_as_bool` and inside
`Storage::copy`, and the argmap index panic), whatever the store, input
vector and loop limit. -/
theorem C9_no_panic (src : List Char) (inp : List (List Char)) (lim : Nat)
    (st : Store) (out : List Char) (f : Nat) :
    runP f inp lim (initPS (tokenize src)) ⟨st, out⟩ ≠ .panicked :=
  interp_no_panic f inp lim (.runC (initPS (tokenize src)) ⟨st, out⟩)
    (fun t ht => tokAux_ok src.length src t ht)


end Letterbox
